import Mathlib

/-!
Verification of the tLLM distributed inference runtime core.

The Python sources are shallowly embedded: packed tensors with leading
dimension `n` become Lean lists of length `n` over an abstract row type `τ`
(a row stands for one token's `num_kv_heads x head_dim` slab, whose inner
structure no claim inspects); Python dicts become association lists keyed by
`String`; wall-clock timestamps become explicit rational parameters; the
random choice in `get_free_layer` and the TCP probe result in
`register_client` become explicit inputs.
-/

namespace TLLM

/-! ## Association-list model of Python `dict` (insertion ordered) -/

def alookup {β : Type} : List (String × β) → String → Option β
  | [], _ => none
  | (k, v) :: rest, u => if k = u then some v else alookup rest u

def aset {β : Type} : List (String × β) → String → β → List (String × β)
  | [], u, v => [(u, v)]
  | (k, w) :: rest, u, v => if k = u then (k, v) :: rest else (k, w) :: aset rest u v

def amodify {β : Type} (f : β → β) : List (String × β) → String → List (String × β)
  | [], _ => []
  | (k, w) :: rest, u => if k = u then (k, f w) :: rest else (k, w) :: amodify f rest u

theorem alookup_aset_self {β : Type} :
    ∀ (l : List (String × β)) (u : String) (v : β), alookup (aset l u v) u = some v
  | [], u, v => by simp [aset, alookup]
  | (k, w) :: rest, u, v => by
    by_cases hk : k = u
    · simp [aset, alookup, hk]
    · simp [aset, alookup, hk, alookup_aset_self rest u v]

theorem alookup_aset_ne {β : Type} :
    ∀ (l : List (String × β)) (u u' : String) (v : β), u' ≠ u →
      alookup (aset l u v) u' = alookup l u'
  | [], u, u', v, h => by simp [aset, alookup, Ne.symm h]
  | (k, w) :: rest, u, u', v, h => by
    by_cases hk : k = u
    · subst hk
      simp [aset, alookup, Ne.symm h]
    · by_cases hk' : k = u'
      · simp [aset, alookup, hk, hk', h]
      · simp [aset, alookup, hk, hk', alookup_aset_ne rest u u' v h]

theorem alookup_amodify_self {β : Type} (f : β → β) :
    ∀ (l : List (String × β)) (u : String),
      alookup (amodify f l u) u = (alookup l u).map f
  | [], u => by simp [amodify, alookup]
  | (k, w) :: rest, u => by
    by_cases hk : k = u
    · simp [amodify, alookup, hk]
    · simp [amodify, alookup, hk, alookup_amodify_self f rest u]

theorem alookup_amodify_ne {β : Type} (f : β → β) :
    ∀ (l : List (String × β)) (u u' : String), u' ≠ u →
      alookup (amodify f l u) u' = alookup l u'
  | [], u, u', h => by simp [amodify, alookup]
  | (k, w) :: rest, u, u', h => by
    by_cases hk : k = u
    · subst hk
      simp [amodify, alookup, Ne.symm h]
    · by_cases hk' : k = u'
      · simp [amodify, alookup, hk, hk', h]
      · simp [amodify, alookup, hk, hk', alookup_amodify_ne f rest u u' h]

/-! ## `KVCache` (src/tllm/commons/cache.py, class KVCache)

`key_states`/`value_states` are `None` until the first append; afterwards a
packed tensor with leading dimension `cached_len`. -/

structure KVCache (τ : Type) where
  key_states : Option (List τ)
  value_states : Option (List τ)
deriving Repr, DecidableEq

def KVCache.empty {τ : Type} : KVCache τ := ⟨none, none⟩

/-- `KVCache.__len__`: 0 if `key_states is None` else its leading dimension. -/
def KVCache.len {τ : Type} (kv : KVCache τ) : Nat :=
  match kv.key_states with
  | none => 0
  | some ks => ks.length

/-- The in-place mutation performed on one `KVCache` inside
`RequestsCache.update`: first write installs the slices, later writes
concatenate. -/
def KVCache.append {τ : Type} (kv : KVCache τ) (k v : List τ) : KVCache τ :=
  match kv.key_states with
  | none => ⟨some k, some v⟩
  | some ks => ⟨some (ks ++ k), some (kv.value_states.getD [] ++ v)⟩

theorem KVCache.len_append {τ : Type} (kv : KVCache τ) (k v : List τ) :
    (kv.append k v).len = kv.len + k.length := by
  cases h : kv.key_states with
  | none => simp [KVCache.append, KVCache.len, h]
  | some ks => simp [KVCache.append, KVCache.len, h]

theorem KVCache.key_append {τ : Type} (kv : KVCache τ) (k v : List τ) :
    (kv.append k v).key_states = some (kv.key_states.getD [] ++ k) := by
  cases h : kv.key_states with
  | none => simp [KVCache.append, h]
  | some ks => simp [KVCache.append, h]

theorem KVCache.val_append {τ : Type} (kv : KVCache τ) (k v : List τ)
    (hwf : kv.key_states = none → kv.value_states = none) :
    (kv.append k v).value_states = some (kv.value_states.getD [] ++ v) := by
  cases h : kv.key_states with
  | none => simp [KVCache.append, h, hwf h]
  | some ks => simp [KVCache.append, h]

/-! ## `RequestsCache` (src/tllm/commons/cache.py, class RequestsCache) -/

structure CacheEntry (τ : Type) where
  cache : List (KVCache τ)
  seq_len : Nat
deriving Repr, DecidableEq

structure RequestsCache (τ : Type) where
  num_layers : Nat
  cache_dict : List (String × CacheEntry τ)
deriving Repr, DecidableEq

def RequestsCache.find {τ : Type} (rc : RequestsCache τ) (uuid : String) :
    Option (CacheEntry τ) :=
  alookup rc.cache_dict uuid

/-- `RequestsCache.add`: registers the request with its segment length; a
fresh per-layer cache list when none is carried over. -/
def RequestsCache.add {τ : Type} (rc : RequestsCache τ) (uuid : String) (seq_len : Nat)
    (layer_cache_list : Option (List (KVCache τ))) : RequestsCache τ :=
  { rc with
    cache_dict := aset rc.cache_dict uuid
      ⟨layer_cache_list.getD (List.replicate rc.num_layers KVCache.empty), seq_len⟩ }

/-- `RequestsCache.get_seq_len`: the segment length being processed this step. -/
def RequestsCache.get_seq_len {τ : Type} (rc : RequestsCache τ) (uuid : String) : Nat :=
  ((rc.find uuid).map CacheEntry.seq_len).getD 0

/-- `RequestsCache.get_layer_idx_kv_cache`. -/
def RequestsCache.get_layer_idx_kv_cache {τ : Type} (rc : RequestsCache τ) (uuid : String)
    (layer_idx : Nat) : KVCache τ :=
  (((rc.find uuid).map CacheEntry.cache).getD []).getD layer_idx KVCache.empty

/-- `RequestsCache.get_cache_seq_len`: cached length of one layer's KV. -/
def RequestsCache.get_cache_seq_len {τ : Type} (rc : RequestsCache τ) (uuid : String)
    (layer_idx : Nat) : Nat :=
  (rc.get_layer_idx_kv_cache uuid layer_idx).len

/-- The key tensor cached at one layer ([] while still `None`). -/
def RequestsCache.keyAt {τ : Type} (rc : RequestsCache τ) (uuid : String)
    (layer_idx : Nat) : List τ :=
  ((rc.get_layer_idx_kv_cache uuid layer_idx).key_states).getD []

/-- The value tensor cached at one layer ([] while still `None`). -/
def RequestsCache.valAt {τ : Type} (rc : RequestsCache τ) (uuid : String)
    (layer_idx : Nat) : List τ :=
  ((rc.get_layer_idx_kv_cache uuid layer_idx).value_states).getD []

/-- One iteration's mutation of `cache_dict[uuid]["cache"][layer_idx]` inside
`RequestsCache.update`. -/
def RequestsCache.appendAt {τ : Type} (rc : RequestsCache τ) (uuid : String)
    (layer_idx : Nat) (k v : List τ) : RequestsCache τ :=
  { rc with
    cache_dict := amodify
      (fun e =>
        { e with
          cache := e.cache.set layer_idx
            ((e.cache.getD layer_idx KVCache.empty).append k v) })
      rc.cache_dict uuid }

/-- `RequestsCache.update`, with the loop's running offset `start` explicit:
slice `key_states[start:end]` for each uuid, append it to that uuid's layer
cache, emit the full per-layer cache, advance `start`. The final packed
output concatenates the emitted tensors in `uuid_list` order. -/
def RequestsCache.updateFrom {τ : Type} :
    RequestsCache τ → List τ → List τ → List String → Nat → Nat →
      (List τ × List τ) × RequestsCache τ
  | rc, _, _, [], _, _ => (([], []), rc)
  | rc, key_states, value_states, uuid :: rest, layer_idx, start =>
    let interval := rc.get_seq_len uuid
    let cur_key := (key_states.drop start).take interval
    let cur_value := (value_states.drop start).take interval
    let rc' := rc.appendAt uuid layer_idx cur_key cur_value
    let r := RequestsCache.updateFrom rc' key_states value_states rest layer_idx
      (start + interval)
    ((rc'.keyAt uuid layer_idx ++ r.1.1, rc'.valAt uuid layer_idx ++ r.1.2), r.2)

def RequestsCache.update {τ : Type} (rc : RequestsCache τ) (key_states value_states : List τ)
    (uuid_list : List String) (layer_idx : Nat) : (List τ × List τ) × RequestsCache τ :=
  RequestsCache.updateFrom rc key_states value_states uuid_list layer_idx 0

/-- Specification-side splitter: cut a packed tensor into consecutive
segments of the given lengths. -/
def splitSegments {τ : Type} : List τ → List Nat → List (List τ)
  | _, [] => []
  | l, n :: rest => l.take n :: splitSegments (l.drop n) rest

/-! ### Effect of one `appendAt` on the observation functions -/

theorem appendAt_find_self {τ : Type} (rc : RequestsCache τ) (u : String)
    (layer : Nat) (k v : List τ) :
    (rc.appendAt u layer k v).find u
      = (rc.find u).map (fun e =>
          { e with
            cache := e.cache.set layer
              ((e.cache.getD layer KVCache.empty).append k v) }) := by
  simp [RequestsCache.appendAt, RequestsCache.find, alookup_amodify_self]

theorem appendAt_find_ne {τ : Type} (rc : RequestsCache τ) (u u' : String)
    (layer : Nat) (k v : List τ) (h : u' ≠ u) :
    (rc.appendAt u layer k v).find u' = rc.find u' := by
  simp [RequestsCache.appendAt, RequestsCache.find, alookup_amodify_ne _ _ _ _ h]

theorem appendAt_get_seq_len {τ : Type} (rc : RequestsCache τ) (u u' : String)
    (layer : Nat) (k v : List τ) :
    (rc.appendAt u layer k v).get_seq_len u' = rc.get_seq_len u' := by
  by_cases h : u' = u
  · subst h
    simp [RequestsCache.get_seq_len, appendAt_find_self]
    cases rc.find u' <;> rfl
  · simp [RequestsCache.get_seq_len, appendAt_find_ne rc u u' layer k v h]

theorem appendAt_isSome {τ : Type} (rc : RequestsCache τ) (u u' : String)
    (layer : Nat) (k v : List τ) :
    ((rc.appendAt u layer k v).find u').isSome = (rc.find u').isSome := by
  by_cases h : u' = u
  · subst h
    rw [appendAt_find_self]
    cases rc.find u' <;> rfl
  · rw [appendAt_find_ne rc u u' layer k v h]

theorem appendAt_cache_length {τ : Type} (rc : RequestsCache τ) (u u' : String)
    (layer : Nat) (k v : List τ) :
    ((rc.appendAt u layer k v).find u').map (fun e => e.cache.length)
      = (rc.find u').map (fun e => e.cache.length) := by
  by_cases h : u' = u
  · subst h
    rw [appendAt_find_self]
    cases rc.find u' with
    | none => rfl
    | some e => simp
  · rw [appendAt_find_ne rc u u' layer k v h]

theorem appendAt_other_layer {τ : Type} (rc : RequestsCache τ) (u u' : String)
    (layer l' : Nat) (k v : List τ) (h : l' ≠ layer) :
    (rc.appendAt u layer k v).get_layer_idx_kv_cache u' l'
      = rc.get_layer_idx_kv_cache u' l' := by
  by_cases hu : u' = u
  · subst hu
    rw [RequestsCache.get_layer_idx_kv_cache, RequestsCache.get_layer_idx_kv_cache,
      appendAt_find_self]
    cases rc.find u' with
    | none => rfl
    | some e => simp [List.getElem?_set_ne (Ne.symm h)]
  · rw [RequestsCache.get_layer_idx_kv_cache, RequestsCache.get_layer_idx_kv_cache,
      appendAt_find_ne rc u u' layer k v hu]

theorem appendAt_self_layer {τ : Type} (rc : RequestsCache τ) (u : String)
    (layer : Nat) (k v : List τ) (e : CacheEntry τ)
    (hf : rc.find u = some e) (hl : layer < e.cache.length) :
    (rc.appendAt u layer k v).get_layer_idx_kv_cache u layer
      = (rc.get_layer_idx_kv_cache u layer).append k v := by
  rw [RequestsCache.get_layer_idx_kv_cache, RequestsCache.get_layer_idx_kv_cache,
    appendAt_find_self, hf]
  simp [List.getElem?_set_self hl]

/-! ### Frame facts about `updateFrom`'s resulting state -/

theorem updateFrom_find_not_mem {τ : Type} :
    ∀ (us : List String) (rc : RequestsCache τ) (ks vs : List τ) (layer start : Nat)
      (u : String), u ∉ us →
      (RequestsCache.updateFrom rc ks vs us layer start).2.find u = rc.find u
  | [], rc, ks, vs, layer, start, u, _ => rfl
  | u0 :: rest, rc, ks, vs, layer, start, u, h => by
    have h0 : u ≠ u0 := fun hh => h (hh ▸ List.mem_cons_self u0 rest)
    have h1 : u ∉ rest := fun hh => h (List.mem_cons_of_mem u0 hh)
    rw [RequestsCache.updateFrom]
    exact (updateFrom_find_not_mem rest _ ks vs layer _ u h1).trans
      (appendAt_find_ne rc u0 u layer _ _ h0)

theorem updateFrom_get_seq_len {τ : Type} :
    ∀ (us : List String) (rc : RequestsCache τ) (ks vs : List τ) (layer start : Nat)
      (u : String),
      (RequestsCache.updateFrom rc ks vs us layer start).2.get_seq_len u
        = rc.get_seq_len u
  | [], rc, ks, vs, layer, start, u => rfl
  | u0 :: rest, rc, ks, vs, layer, start, u => by
    rw [RequestsCache.updateFrom]
    exact (updateFrom_get_seq_len rest _ ks vs layer _ u).trans
      (appendAt_get_seq_len rc u0 u layer _ _)

theorem updateFrom_isSome {τ : Type} :
    ∀ (us : List String) (rc : RequestsCache τ) (ks vs : List τ) (layer start : Nat)
      (u : String),
      ((RequestsCache.updateFrom rc ks vs us layer start).2.find u).isSome
        = (rc.find u).isSome
  | [], rc, ks, vs, layer, start, u => rfl
  | u0 :: rest, rc, ks, vs, layer, start, u => by
    rw [RequestsCache.updateFrom]
    exact (updateFrom_isSome rest _ ks vs layer _ u).trans
      (appendAt_isSome rc u0 u layer _ _)

theorem updateFrom_cache_length {τ : Type} :
    ∀ (us : List String) (rc : RequestsCache τ) (ks vs : List τ) (layer start : Nat)
      (u : String),
      ((RequestsCache.updateFrom rc ks vs us layer start).2.find u).map
          (fun e => e.cache.length)
        = (rc.find u).map (fun e => e.cache.length)
  | [], rc, ks, vs, layer, start, u => rfl
  | u0 :: rest, rc, ks, vs, layer, start, u => by
    rw [RequestsCache.updateFrom]
    exact (updateFrom_cache_length rest _ ks vs layer _ u).trans
      (appendAt_cache_length rc u0 u layer _ _)

theorem updateFrom_other_layer {τ : Type} :
    ∀ (us : List String) (rc : RequestsCache τ) (ks vs : List τ) (layer start : Nat)
      (u : String) (l' : Nat), l' ≠ layer →
      (RequestsCache.updateFrom rc ks vs us layer start).2.get_layer_idx_kv_cache u l'
        = rc.get_layer_idx_kv_cache u l'
  | [], rc, ks, vs, layer, start, u, l', _ => rfl
  | u0 :: rest, rc, ks, vs, layer, start, u, l', h => by
    rw [RequestsCache.updateFrom]
    exact (updateFrom_other_layer rest _ ks vs layer _ u l' h).trans
      (appendAt_other_layer rc u0 u layer l' _ _ h)

theorem glik_congr {τ : Type} {rc1 rc2 : RequestsCache τ} {u : String}
    (h : rc1.find u = rc2.find u) (l : Nat) :
    rc1.get_layer_idx_kv_cache u l = rc2.get_layer_idx_kv_cache u l := by
  rw [RequestsCache.get_layer_idx_kv_cache, RequestsCache.get_layer_idx_kv_cache, h]

theorem keyAt_congr {τ : Type} {rc1 rc2 : RequestsCache τ} {u : String}
    (h : rc1.find u = rc2.find u) (l : Nat) : rc1.keyAt u l = rc2.keyAt u l := by
  rw [RequestsCache.keyAt, RequestsCache.keyAt, glik_congr h]

theorem valAt_congr {τ : Type} {rc1 rc2 : RequestsCache τ} {u : String}
    (h : rc1.find u = rc2.find u) (l : Nat) : rc1.valAt u l = rc2.valAt u l := by
  rw [RequestsCache.valAt, RequestsCache.valAt, glik_congr h]

theorem keyAt_length {τ : Type} (rc : RequestsCache τ) (u : String) (l : Nat) :
    (rc.keyAt u l).length = rc.get_cache_seq_len u l := by
  rw [RequestsCache.keyAt, RequestsCache.get_cache_seq_len]
  cases h : (rc.get_layer_idx_kv_cache u l).key_states <;> simp [KVCache.len, h]

/-- Core characterization of `RequestsCache.update`'s loop: outputs are the
concatenation of each request's full per-layer cache (pre-existing plus its
slice of the packed input) in `uuid_list` order, each request's layer cache
is extended by exactly its slice, and cached lengths grow by the segment
lengths. -/
theorem updateFrom_spec {τ : Type} :
    ∀ (us : List String) (rc : RequestsCache τ) (ks vs : List τ) (layer start : Nat),
      us.Nodup →
      (∀ u ∈ us, ∃ e, rc.find u = some e ∧ layer < e.cache.length) →
      (∀ u ∈ us, (rc.get_layer_idx_kv_cache u layer).key_states = none →
          (rc.get_layer_idx_kv_cache u layer).value_states = none) →
      (us.map rc.get_seq_len).sum ≤ (ks.drop start).length →
      (us.map rc.get_seq_len).sum ≤ (vs.drop start).length →
      (RequestsCache.updateFrom rc ks vs us layer start).1.1
          = ((us.zip (splitSegments (ks.drop start) (us.map rc.get_seq_len))).map
              (fun p => rc.keyAt p.1 layer ++ p.2)).flatten
        ∧ (RequestsCache.updateFrom rc ks vs us layer start).1.2
          = ((us.zip (splitSegments (vs.drop start) (us.map rc.get_seq_len))).map
              (fun p => rc.valAt p.1 layer ++ p.2)).flatten
        ∧ (∀ u ∈ us,
            (RequestsCache.updateFrom rc ks vs us layer start).2.get_cache_seq_len u layer
              = rc.get_cache_seq_len u layer + rc.get_seq_len u)
        ∧ (∀ p ∈ us.zip (splitSegments (ks.drop start) (us.map rc.get_seq_len)),
            ((RequestsCache.updateFrom rc ks vs us layer start).2.get_layer_idx_kv_cache
                p.1 layer).key_states = some (rc.keyAt p.1 layer ++ p.2))
        ∧ (∀ p ∈ us.zip (splitSegments (vs.drop start) (us.map rc.get_seq_len)),
            ((RequestsCache.updateFrom rc ks vs us layer start).2.get_layer_idx_kv_cache
                p.1 layer).value_states = some (rc.valAt p.1 layer ++ p.2))
  | [], rc, ks, vs, layer, start, _, _, _, _, _ => by
    refine ⟨rfl, rfl, ?_, ?_, ?_⟩ <;> intro u hu <;> simp at hu
  | u0 :: rest, rc, ks, vs, layer, start, hnd, hmem, hwf, hlK, hlV => by
    obtain ⟨hn0, hndr⟩ := List.nodup_cons.mp hnd
    obtain ⟨e, he, hl⟩ := hmem u0 (List.mem_cons_self u0 rest)
    set n := rc.get_seq_len u0 with hn
    set cK := (ks.drop start).take n with hcK
    set cV := (vs.drop start).take n with hcV
    set rc' := rc.appendAt u0 layer cK cV with hrc'
    have hseq' : ∀ u, rc'.get_seq_len u = rc.get_seq_len u :=
      fun u => appendAt_get_seq_len rc u0 u layer cK cV
    have hmap' : rest.map rc'.get_seq_len = rest.map rc.get_seq_len :=
      List.map_congr_left (fun u _ => hseq' u)
    have hfind' : ∀ u ∈ rest, rc'.find u = rc.find u := fun u hu =>
      appendAt_find_ne rc u0 u layer cK cV (fun hh => hn0 (hh ▸ hu))
    have hsum : n + (rest.map rc.get_seq_len).sum ≤ (ks.drop start).length := by
      simpa [hn] using hlK
    have hsumV : n + (rest.map rc.get_seq_len).sum ≤ (vs.drop start).length := by
      simpa [hn] using hlV
    have hcKlen : cK.length = n := by
      rw [hcK, List.length_take]
      omega
    have hcVlen : cV.length = n := by
      rw [hcV, List.length_take]
      omega
    have hdK : ks.drop (start + n) = (ks.drop start).drop n := by
      rw [List.drop_drop]
    have hdV : vs.drop (start + n) = (vs.drop start).drop n := by
      rw [List.drop_drop]
    have hlK' : (rest.map rc'.get_seq_len).sum ≤ (ks.drop (start + n)).length := by
      rw [hmap', hdK, List.length_drop]
      omega
    have hlV' : (rest.map rc'.get_seq_len).sum ≤ (vs.drop (start + n)).length := by
      rw [hmap', hdV, List.length_drop]
      omega
    have hmem' : ∀ u ∈ rest, ∃ e, rc'.find u = some e ∧ layer < e.cache.length :=
      fun u hu => (hfind' u hu) ▸ hmem u (List.mem_cons_of_mem u0 hu)
    have hwf' : ∀ u ∈ rest, (rc'.get_layer_idx_kv_cache u layer).key_states = none →
        (rc'.get_layer_idx_kv_cache u layer).value_states = none := by
      intro u hu
      rw [glik_congr (hfind' u hu)]
      exact hwf u (List.mem_cons_of_mem u0 hu)
    have IH := updateFrom_spec rest rc' ks vs layer (start + n) hndr hmem' hwf' hlK' hlV'
    have hglik0 : rc'.get_layer_idx_kv_cache u0 layer
        = (rc.get_layer_idx_kv_cache u0 layer).append cK cV :=
      appendAt_self_layer rc u0 layer cK cV e he hl
    have hkey0 : rc'.keyAt u0 layer = rc.keyAt u0 layer ++ cK := by
      rw [RequestsCache.keyAt, hglik0, KVCache.key_append]
      rfl
    have hval0 : rc'.valAt u0 layer = rc.valAt u0 layer ++ cV := by
      rw [RequestsCache.valAt, hglik0,
        KVCache.val_append _ _ _ (hwf u0 (List.mem_cons_self u0 rest))]
      rfl
    have hstep : RequestsCache.updateFrom rc ks vs (u0 :: rest) layer start
        = ((rc'.keyAt u0 layer
              ++ (RequestsCache.updateFrom rc' ks vs rest layer (start + n)).1.1,
            rc'.valAt u0 layer
              ++ (RequestsCache.updateFrom rc' ks vs rest layer (start + n)).1.2),
           (RequestsCache.updateFrom rc' ks vs rest layer (start + n)).2) := rfl
    have hzipK : (u0 :: rest).zip
          (splitSegments (ks.drop start) ((u0 :: rest).map rc.get_seq_len))
        = (u0, cK) :: rest.zip (splitSegments (ks.drop (start + n))
            (rest.map rc.get_seq_len)) := by
      rw [List.map_cons, splitSegments, hdK, List.zip_cons_cons]
    have hzipV : (u0 :: rest).zip
          (splitSegments (vs.drop start) ((u0 :: rest).map rc.get_seq_len))
        = (u0, cV) :: rest.zip (splitSegments (vs.drop (start + n))
            (rest.map rc.get_seq_len)) := by
      rw [List.map_cons, splitSegments, hdV, List.zip_cons_cons]
    have hfinal0 : (RequestsCache.updateFrom rc' ks vs rest layer (start + n)).2.find u0
        = rc'.find u0 :=
      updateFrom_find_not_mem rest rc' ks vs layer (start + n) u0 hn0
    refine ⟨?_, ?_, ?_, ?_, ?_⟩
    · rw [hstep]
      show rc'.keyAt u0 layer
            ++ (RequestsCache.updateFrom rc' ks vs rest layer (start + n)).1.1 = _
      rw [IH.1, hzipK, List.map_cons, List.flatten_cons, hkey0, hmap']
      congr 1
      exact congrArg List.flatten (List.map_congr_left (fun p hp =>
        congrArg (· ++ p.2) (keyAt_congr (hfind' p.1 (List.of_mem_zip hp).1) layer)))
    · rw [hstep]
      show rc'.valAt u0 layer
            ++ (RequestsCache.updateFrom rc' ks vs rest layer (start + n)).1.2 = _
      rw [IH.2.1, hzipV, List.map_cons, List.flatten_cons, hval0, hmap']
      congr 1
      exact congrArg List.flatten (List.map_congr_left (fun p hp =>
        congrArg (· ++ p.2) (valAt_congr (hfind' p.1 (List.of_mem_zip hp).1) layer)))
    · intro u hu
      rw [hstep]
      rcases List.mem_cons.mp hu with hu0 | hur
      · subst hu0
        show (RequestsCache.updateFrom rc' ks vs rest layer
            (start + n)).2.get_cache_seq_len u layer = _
        rw [RequestsCache.get_cache_seq_len, glik_congr hfinal0, hglik0,
          KVCache.len_append, hcKlen]
        rfl
      · have h1 := IH.2.2.1 u hur
        have h2 : rc'.get_cache_seq_len u layer = rc.get_cache_seq_len u layer := by
          rw [RequestsCache.get_cache_seq_len, RequestsCache.get_cache_seq_len,
            glik_congr (hfind' u hur)]
        show (RequestsCache.updateFrom rc' ks vs rest layer
            (start + n)).2.get_cache_seq_len u layer = _
        rw [h1, h2, hseq' u]
    · intro p hp
      rw [hstep]
      rw [hzipK] at hp
      rcases List.mem_cons.mp hp with hp0 | hpr
      · subst hp0
        show ((RequestsCache.updateFrom rc' ks vs rest layer
            (start + n)).2.get_layer_idx_kv_cache u0 layer).key_states = _
        rw [glik_congr hfinal0, hglik0, KVCache.key_append]
        rfl
      · have := IH.2.2.2.1 p (by rw [hmap']; exact hpr)
        rw [keyAt_congr (hfind' p.1 (List.of_mem_zip hpr).1) layer] at this
        exact this
    · intro p hp
      rw [hstep]
      rw [hzipV] at hp
      rcases List.mem_cons.mp hp with hp0 | hpr
      · subst hp0
        show ((RequestsCache.updateFrom rc' ks vs rest layer
            (start + n)).2.get_layer_idx_kv_cache u0 layer).value_states = _
        rw [glik_congr hfinal0, hglik0,
          KVCache.val_append _ _ _ (hwf u0 (List.mem_cons_self u0 rest))]
        rfl
      · have := IH.2.2.2.2 p (by rw [hmap']; exact hpr)
        rw [valAt_congr (hfind' p.1 (List.of_mem_zip hpr).1) layer] at this
        exact this

theorem zip_split_sum {τ : Type} :
    ∀ (us : List String) (l : List τ) (g F : String → Nat),
      (us.map g).sum ≤ l.length →
      ((us.zip (splitSegments l (us.map g))).map (fun p => F p.1 + p.2.length)).sum
        = (us.map (fun u => F u + g u)).sum
  | [], _, _, _, _ => rfl
  | u :: rest, l, g, F, h => by
    have hh : g u + (rest.map g).sum ≤ l.length := by simpa using h
    have hg : g u ≤ l.length := by omega
    have hrest : (rest.map g).sum ≤ (l.drop (g u)).length := by
      rw [List.length_drop]
      omega
    rw [List.map_cons, splitSegments, List.zip_cons_cons, List.map_cons, List.sum_cons,
      List.map_cons, List.sum_cons, zip_split_sum rest (l.drop (g u)) g F hrest]
    simp [List.length_take, Nat.min_eq_left hg]

/-- C1. `RequestsCache.update` splits the packed key/value tensors by
per-request segment length in `uuid_list` order, appends each slice to that
request's per-layer cache at `layer_idx`, and returns packed K/V formed by
concatenating every request's full per-layer cache (pre-existing plus newly
appended) in exactly `uuid_list` order; the returned leading dimension is
the sum over `uuid_list` of (old cached length + segment length). -/
theorem C1_update_splits_appends_and_concats {τ : Type} (rc : RequestsCache τ)
    (key_states value_states : List τ) (uuid_list : List String) (layer_idx : Nat)
    (hnd : uuid_list.Nodup)
    (hmem : ∀ u ∈ uuid_list, ∃ e, rc.find u = some e ∧ layer_idx < e.cache.length)
    (hwf : ∀ u ∈ uuid_list, (rc.get_layer_idx_kv_cache u layer_idx).key_states = none →
        (rc.get_layer_idx_kv_cache u layer_idx).value_states = none)
    (hvk : ∀ u ∈ uuid_list,
        (rc.valAt u layer_idx).length = (rc.keyAt u layer_idx).length)
    (hk : key_states.length = (uuid_list.map rc.get_seq_len).sum)
    (hv : value_states.length = (uuid_list.map rc.get_seq_len).sum) :
    (rc.update key_states value_states uuid_list layer_idx).1.1
        = ((uuid_list.zip (splitSegments key_states (uuid_list.map rc.get_seq_len))).map
            (fun p => rc.keyAt p.1 layer_idx ++ p.2)).flatten
      ∧ (rc.update key_states value_states uuid_list layer_idx).1.2
        = ((uuid_list.zip (splitSegments value_states (uuid_list.map rc.get_seq_len))).map
            (fun p => rc.valAt p.1 layer_idx ++ p.2)).flatten
      ∧ (∀ p ∈ uuid_list.zip (splitSegments key_states (uuid_list.map rc.get_seq_len)),
          (rc.update key_states value_states uuid_list layer_idx).2.keyAt p.1 layer_idx
            = rc.keyAt p.1 layer_idx ++ p.2)
      ∧ (∀ p ∈ uuid_list.zip (splitSegments value_states (uuid_list.map rc.get_seq_len)),
          (rc.update key_states value_states uuid_list layer_idx).2.valAt p.1 layer_idx
            = rc.valAt p.1 layer_idx ++ p.2)
      ∧ (rc.update key_states value_states uuid_list layer_idx).1.1.length
        = (uuid_list.map
            (fun u => rc.get_cache_seq_len u layer_idx + rc.get_seq_len u)).sum
      ∧ (rc.update key_states value_states uuid_list layer_idx).1.2.length
        = (uuid_list.map
            (fun u => rc.get_cache_seq_len u layer_idx + rc.get_seq_len u)).sum := by
  have hlK : (uuid_list.map rc.get_seq_len).sum ≤ (key_states.drop 0).length := by
    rw [List.drop_zero, hk]
  have hlV : (uuid_list.map rc.get_seq_len).sum ≤ (value_states.drop 0).length := by
    rw [List.drop_zero, hv]
  have H := updateFrom_spec uuid_list rc key_states value_states layer_idx 0
    hnd hmem hwf hlK hlV
  simp only [List.drop_zero] at H
  have hKout := H.1
  have hVout := H.2.1
  simp only [RequestsCache.update]
  refine ⟨hKout, hVout, ?_, ?_, ?_, ?_⟩
  · intro p hp
    rw [RequestsCache.keyAt, H.2.2.2.1 p hp]
    rfl
  · intro p hp
    rw [RequestsCache.valAt, H.2.2.2.2 p hp]
    rfl
  · rw [hKout, List.length_flatten, List.map_map]
    have : (List.length ∘ fun p : String × List τ => rc.keyAt p.1 layer_idx ++ p.2)
        = fun p : String × List τ => rc.get_cache_seq_len p.1 layer_idx + p.2.length := by
      funext p
      simp [keyAt_length rc p.1 layer_idx]
    rw [this, zip_split_sum uuid_list key_states rc.get_seq_len
      (fun u => rc.get_cache_seq_len u layer_idx) (by rw [hk])]
  · rw [hVout, List.length_flatten, List.map_map]
    have hcongr : ∀ p ∈ uuid_list.zip
          (splitSegments value_states (uuid_list.map rc.get_seq_len)),
        (List.length ∘ fun q : String × List τ => rc.valAt q.1 layer_idx ++ q.2) p
          = (fun q : String × List τ =>
              rc.get_cache_seq_len q.1 layer_idx + q.2.length) p := by
      intro p hp
      rcases p with ⟨u, s⟩
      have hu : u ∈ uuid_list := (List.of_mem_zip hp).1
      simp [hvk u hu, keyAt_length rc u layer_idx]
    rw [List.map_congr_left hcongr, zip_split_sum uuid_list value_states rc.get_seq_len
      (fun u => rc.get_cache_seq_len u layer_idx) (by rw [hv])]

/-- Concrete one-layer cache: request "a" fresh with segment length 2,
request "b" with one already-cached row and segment length 1. -/
def rcW1 : RequestsCache Nat :=
  ((⟨1, []⟩ : RequestsCache Nat).add "a" 2 none).add "b" 1
    (some [⟨some [100], some [200]⟩])

theorem C1_update_witness :
    (["a", "b"] : List String).Nodup
    ∧ (∀ u ∈ ["a", "b"], ∃ e, rcW1.find u = some e ∧ 0 < e.cache.length)
    ∧ (∀ u ∈ ["a", "b"], (rcW1.get_layer_idx_kv_cache u 0).key_states = none →
        (rcW1.get_layer_idx_kv_cache u 0).value_states = none)
    ∧ (∀ u ∈ ["a", "b"], (rcW1.valAt u 0).length = (rcW1.keyAt u 0).length)
    ∧ ([1, 2, 3] : List Nat).length = (["a", "b"].map rcW1.get_seq_len).sum
    ∧ ([4, 5, 6] : List Nat).length = (["a", "b"].map rcW1.get_seq_len).sum
    ∧ ((rcW1.update [1, 2, 3] [4, 5, 6] ["a", "b"] 0).1.1
          = ((["a", "b"].zip
                (splitSegments [1, 2, 3] (["a", "b"].map rcW1.get_seq_len))).map
              (fun p => rcW1.keyAt p.1 0 ++ p.2)).flatten
        ∧ (rcW1.update [1, 2, 3] [4, 5, 6] ["a", "b"] 0).1.2
          = ((["a", "b"].zip
                (splitSegments [4, 5, 6] (["a", "b"].map rcW1.get_seq_len))).map
              (fun p => rcW1.valAt p.1 0 ++ p.2)).flatten
        ∧ (∀ p ∈ ["a", "b"].zip
              (splitSegments [1, 2, 3] (["a", "b"].map rcW1.get_seq_len)),
            (rcW1.update [1, 2, 3] [4, 5, 6] ["a", "b"] 0).2.keyAt p.1 0
              = rcW1.keyAt p.1 0 ++ p.2)
        ∧ (∀ p ∈ ["a", "b"].zip
              (splitSegments [4, 5, 6] (["a", "b"].map rcW1.get_seq_len)),
            (rcW1.update [1, 2, 3] [4, 5, 6] ["a", "b"] 0).2.valAt p.1 0
              = rcW1.valAt p.1 0 ++ p.2)
        ∧ (rcW1.update [1, 2, 3] [4, 5, 6] ["a", "b"] 0).1.1.length
          = (["a", "b"].map
              (fun u => rcW1.get_cache_seq_len u 0 + rcW1.get_seq_len u)).sum
        ∧ (rcW1.update [1, 2, 3] [4, 5, 6] ["a", "b"] 0).1.2.length
          = (["a", "b"].map
              (fun u => rcW1.get_cache_seq_len u 0 + rcW1.get_seq_len u)).sum) := by
  have h1 : (["a", "b"] : List String).Nodup := by decide
  have h2 : ∀ u ∈ ["a", "b"], ∃ e, rcW1.find u = some e ∧ 0 < e.cache.length := by
    intro u hu
    simp only [List.mem_cons, List.not_mem_nil, or_false] at hu
    rcases hu with rfl | rfl
    · exact ⟨⟨[⟨none, none⟩], 2⟩, by decide, by decide⟩
    · exact ⟨⟨[⟨some [100], some [200]⟩], 1⟩, by decide, by decide⟩
  have h3 : ∀ u ∈ ["a", "b"], (rcW1.get_layer_idx_kv_cache u 0).key_states = none →
      (rcW1.get_layer_idx_kv_cache u 0).value_states = none := by
    intro u hu h
    simp only [List.mem_cons, List.not_mem_nil, or_false] at hu
    rcases hu with rfl | rfl
    · decide
    · exact absurd h (by decide)
  have h4 : ∀ u ∈ ["a", "b"], (rcW1.valAt u 0).length = (rcW1.keyAt u 0).length := by
    intro u hu
    simp only [List.mem_cons, List.not_mem_nil, or_false] at hu
    rcases hu with rfl | rfl
    · decide
    · decide
  have h5 : ([1, 2, 3] : List Nat).length = (["a", "b"].map rcW1.get_seq_len).sum := by
    decide
  have h6 : ([4, 5, 6] : List Nat).length = (["a", "b"].map rcW1.get_seq_len).sum := by
    decide
  exact ⟨h1, h2, h3, h4, h5, h6,
    C1_update_splits_appends_and_concats rcW1 [1, 2, 3] [4, 5, 6] ["a", "b"] 0
      h1 h2 h3 h4 h5 h6⟩

/-! ## C2: cache-length invariant -/

theorem updateFrom_increment {τ : Type} :
    ∀ (us : List String) (rc : RequestsCache τ) (ks vs : List τ) (layer start : Nat),
      us.Nodup →
      (∀ u ∈ us, ∃ e, rc.find u = some e ∧ layer < e.cache.length) →
      (us.map rc.get_seq_len).sum ≤ (ks.drop start).length →
      ∀ u ∈ us,
        (RequestsCache.updateFrom rc ks vs us layer start).2.get_cache_seq_len u layer
          = rc.get_cache_seq_len u layer + rc.get_seq_len u
  | [], _, _, _, _, _, _, _, _, u, hu => absurd hu (List.not_mem_nil u)
  | u0 :: rest, rc, ks, vs, layer, start, hnd, hmem, hlen, u, hu => by
    obtain ⟨hn0, hndr⟩ := List.nodup_cons.mp hnd
    obtain ⟨e, he, hl⟩ := hmem u0 (List.mem_cons_self u0 rest)
    set n := rc.get_seq_len u0 with hn
    set cK := (ks.drop start).take n with hcK
    set cV := (vs.drop start).take n with hcV
    set rc' := rc.appendAt u0 layer cK cV with hrc'
    have hsum : n + (rest.map rc.get_seq_len).sum ≤ (ks.drop start).length := by
      simpa [hn] using hlen
    have hcKlen : cK.length = n := by
      rw [hcK, List.length_take]
      omega
    have hfind' : ∀ w ∈ rest, rc'.find w = rc.find w := fun w hw =>
      appendAt_find_ne rc u0 w layer cK cV (fun hh => hn0 (hh ▸ hw))
    have hseq' : ∀ w, rc'.get_seq_len w = rc.get_seq_len w :=
      fun w => appendAt_get_seq_len rc u0 w layer cK cV
    have hmap' : rest.map rc'.get_seq_len = rest.map rc.get_seq_len :=
      List.map_congr_left (fun w _ => hseq' w)
    have hmem' : ∀ w ∈ rest, ∃ e, rc'.find w = some e ∧ layer < e.cache.length :=
      fun w hw => (hfind' w hw) ▸ hmem w (List.mem_cons_of_mem u0 hw)
    have hlen' : (rest.map rc'.get_seq_len).sum ≤ (ks.drop (start + n)).length := by
      rw [hmap', List.length_drop]
      rw [List.length_drop] at hsum
      omega
    show (RequestsCache.updateFrom rc' ks vs rest layer
        (start + n)).2.get_cache_seq_len u layer = _
    rcases List.mem_cons.mp hu with rfl | hur
    · have hfin := updateFrom_find_not_mem rest rc' ks vs layer (start + n) u hn0
      rw [RequestsCache.get_cache_seq_len, glik_congr hfin,
        appendAt_self_layer rc u layer cK cV e he hl, KVCache.len_append, hcKlen]
      rfl
    · have h1 := updateFrom_increment rest rc' ks vs layer (start + n) hndr hmem' hlen' u hur
      have h2 : rc'.get_cache_seq_len u layer = rc.get_cache_seq_len u layer := by
        rw [RequestsCache.get_cache_seq_len, RequestsCache.get_cache_seq_len,
          glik_congr (hfind' u hur)]
      rw [h1, h2, hseq' u]

/-- Modelled from the spec: each owned layer's attention calls
`RequestsCache.update` once per step, in increasing layer order, with that
layer's freshly projected packed K/V (the decoder-layer class performing the
call sites is not among the analysed sources; `Decoder.forward` iterates the
owned layers in order). -/
def runLayers {τ : Type} (rc : RequestsCache τ) (ks vs : Nat → List τ)
    (us : List String) : Nat → RequestsCache τ
  | 0 => rc
  | n + 1 => ((runLayers rc ks vs us n).update (ks n) (vs n) us n).2

/-- Modelled from the spec: `build_forward_cache` re-registers each live
request for the new step with its new segment length, carrying over the
per-layer cache list persisted in the `CacheManager` (collapsed here: the
manager stores exactly the list object held by the previous step's
`RequestsCache`). -/
def reAdd {τ : Type} (rcPrev : RequestsCache τ) (us : List String)
    (segs : String → Nat) (L : Nat) : RequestsCache τ :=
  us.foldl (fun acc u => acc.add u (segs u) ((rcPrev.find u).map CacheEntry.cache))
    ⟨L, []⟩

/-- Modelled from the spec: one full forward step of a worker owning layers
`[0, L)`. -/
def runStep {τ : Type} (rc : RequestsCache τ) (us : List String) (segs : String → Nat)
    (ks vs : Nat → List τ) (L : Nat) : RequestsCache τ :=
  runLayers (reAdd rc us segs L) ks vs us L

/-- One step's inputs: per-request segment lengths and the packed per-layer
K/V tensors produced by that step's projections. -/
structure StepData (τ : Type) where
  segs : String → Nat
  ks : Nat → List τ
  vs : Nat → List τ

/-- Modelled from the spec: consecutive forward steps `t = 1, 2, …`. -/
def runSteps {τ : Type} (us : List String) (L : Nat) :
    RequestsCache τ → List (StepData τ) → RequestsCache τ
  | rc, [] => rc
  | rc, st :: rest => runSteps us L (runStep rc us st.segs st.ks st.vs L) rest

theorem foldl_add_num_layers {τ : Type} (rcPrev : RequestsCache τ)
    (segs : String → Nat) :
    ∀ (us : List String) (acc : RequestsCache τ),
      (us.foldl (fun acc u => acc.add u (segs u)
          ((rcPrev.find u).map CacheEntry.cache)) acc).num_layers = acc.num_layers
  | [], acc => rfl
  | w :: rest, acc => by
    rw [List.foldl_cons, foldl_add_num_layers rcPrev segs rest]
    rfl

theorem foldl_add_find_not_mem {τ : Type} (rcPrev : RequestsCache τ)
    (segs : String → Nat) :
    ∀ (us : List String) (acc : RequestsCache τ) (u : String), u ∉ us →
      (us.foldl (fun acc w => acc.add w (segs w)
          ((rcPrev.find w).map CacheEntry.cache)) acc).find u = acc.find u
  | [], acc, u, _ => rfl
  | w :: rest, acc, u, h => by
    have h0 : u ≠ w := fun hh => h (hh ▸ List.mem_cons_self w rest)
    have h1 : u ∉ rest := fun hh => h (List.mem_cons_of_mem w hh)
    rw [List.foldl_cons, foldl_add_find_not_mem rcPrev segs rest _ u h1]
    exact alookup_aset_ne _ _ _ _ h0

theorem reAdd_find {τ : Type} (rcPrev : RequestsCache τ) (segs : String → Nat)
    (L : Nat) :
    ∀ (us : List String) (acc : RequestsCache τ), acc.num_layers = L →
      us.Nodup → ∀ u ∈ us,
      (us.foldl (fun acc w => acc.add w (segs w)
          ((rcPrev.find w).map CacheEntry.cache)) acc).find u
        = some ⟨((rcPrev.find u).map CacheEntry.cache).getD
            (List.replicate L KVCache.empty), segs u⟩
  | [], _, _, _, u, hu => absurd hu (List.not_mem_nil u)
  | w :: rest, acc, hL, hnd, u, hu => by
    obtain ⟨hw0, hndr⟩ := List.nodup_cons.mp hnd
    rcases List.mem_cons.mp hu with rfl | hur
    · rw [List.foldl_cons, foldl_add_find_not_mem rcPrev segs rest _ u hw0]
      show alookup (aset acc.cache_dict u _) u = _
      rw [alookup_aset_self, hL]
    · rw [List.foldl_cons]
      exact reAdd_find rcPrev segs L rest _ (by rw [← hL]; rfl) hndr u hur

/-- Every registered request among `us` has a `num_layers_owned`-long layer
cache list. -/
def WFlen {τ : Type} (rc : RequestsCache τ) (us : List String) (L : Nat) : Prop :=
  ∀ u ∈ us, ∀ e, rc.find u = some e → e.cache.length = L

/-- Mid-step registration state: every request of the batch is present with a
`L`-long cache list and this step's segment length. -/
def entryOK {τ : Type} (rc : RequestsCache τ) (us : List String) (segs : String → Nat)
    (L : Nat) : Prop :=
  ∀ u ∈ us, ∃ e, rc.find u = some e ∧ e.cache.length = L ∧ e.seq_len = segs u

theorem entryOK_seq_len {τ : Type} {rc : RequestsCache τ} {us : List String}
    {segs : String → Nat} {L : Nat} (h : entryOK rc us segs L) :
    ∀ u ∈ us, rc.get_seq_len u = segs u := by
  intro u hu
  obtain ⟨e, he, _, hseq⟩ := h u hu
  rw [RequestsCache.get_seq_len, he]
  exact hseq

theorem update_preserves_entryOK {τ : Type} {rc : RequestsCache τ} {us : List String}
    {segs : String → Nat} {L : Nat} (ks vs : List τ) (layer : Nat)
    (h : entryOK rc us segs L) :
    entryOK ((rc.update ks vs us layer).2) us segs L := by
  intro u hu
  obtain ⟨e, he, hlen, hseq⟩ := h u hu
  have hs := updateFrom_isSome us rc ks vs layer 0 u
  rw [he] at hs
  rcases he' : (RequestsCache.updateFrom rc ks vs us layer 0).2.find u with _ | e'
  · rw [he'] at hs
    exact absurd hs (by simp)
  · refine ⟨e', he', ?_, ?_⟩
    · have hc := updateFrom_cache_length us rc ks vs layer 0 u
      rw [he, he'] at hc
      simpa [hlen] using hc
    · have hq := updateFrom_get_seq_len us rc ks vs layer 0 u
      rw [RequestsCache.get_seq_len, RequestsCache.get_seq_len, he, he'] at hq
      simpa [hseq] using hq

theorem runLayers_entryOK {τ : Type} {rc : RequestsCache τ} {us : List String}
    {segs : String → Nat} {L : Nat} (ks vs : Nat → List τ)
    (h : entryOK rc us segs L) :
    ∀ n, entryOK (runLayers rc ks vs us n) us segs L
  | 0 => h
  | n + 1 =>
    update_preserves_entryOK (ks n) (vs n) n (runLayers_entryOK ks vs h n)

theorem runLayers_gcsl {τ : Type} {rc : RequestsCache τ} {us : List String}
    {segs : String → Nat} {L : Nat} (ks vs : Nat → List τ)
    (hnd : us.Nodup) (h : entryOK rc us segs L)
    (hks : ∀ l, l < L → (ks l).length = (us.map segs).sum) :
    ∀ n, n ≤ L → ∀ u ∈ us, ∀ l, l < L →
      (runLayers rc ks vs us n).get_cache_seq_len u l
        = rc.get_cache_seq_len u l + (if l < n then segs u else 0)
  | 0, _, u, hu, l, hl => by simp [runLayers]
  | n + 1, hn, u, hu, l, hl => by
    have hEOK := runLayers_entryOK ks vs h n
    have hmem : ∀ w ∈ us, ∃ e, (runLayers rc ks vs us n).find w = some e
        ∧ n < e.cache.length := by
      intro w hw
      obtain ⟨e, he, hlen, _⟩ := hEOK w hw
      exact ⟨e, he, by omega⟩
    have hklen : (us.map (runLayers rc ks vs us n).get_seq_len).sum
        ≤ ((ks n).drop 0).length := by
      rw [List.drop_zero, hks n (by omega),
        List.map_congr_left (entryOK_seq_len hEOK)]
    by_cases hcase : l = n
    · have hinc := updateFrom_increment us (runLayers rc ks vs us n) (ks n) (vs n) n 0
        hnd hmem hklen u hu
      show (RequestsCache.updateFrom (runLayers rc ks vs us n) (ks n) (vs n) us n
          0).2.get_cache_seq_len u l = _
      rw [hcase, hinc, runLayers_gcsl ks vs hnd h hks n (by omega) u hu n (by omega),
        entryOK_seq_len hEOK u hu]
      simp
    · have hother := updateFrom_other_layer us (runLayers rc ks vs us n)
        (ks n) (vs n) n 0 u l hcase
      show (RequestsCache.updateFrom (runLayers rc ks vs us n) (ks n) (vs n) us n
          0).2.get_cache_seq_len u l = _
      rw [RequestsCache.get_cache_seq_len, hother,
        ← RequestsCache.get_cache_seq_len,
        runLayers_gcsl ks vs hnd h hks n (by omega) u hu l hl]
      rcases Nat.lt_or_ge l n with h' | h'
      · rw [if_pos h', if_pos (by omega)]
      · rw [if_neg (by omega), if_neg (by omega)]

theorem reAdd_find_mem {τ : Type} (rcPrev : RequestsCache τ) (us : List String)
    (segs : String → Nat) (L : Nat) (hnd : us.Nodup) (u : String) (hu : u ∈ us) :
    (reAdd rcPrev us segs L).find u
      = some ⟨((rcPrev.find u).map CacheEntry.cache).getD
          (List.replicate L KVCache.empty), segs u⟩ :=
  reAdd_find rcPrev segs L us ⟨L, []⟩ rfl hnd u hu

theorem reAdd_entryOK {τ : Type} {rc : RequestsCache τ} {us : List String}
    {segs : String → Nat} {L : Nat} (hwf : WFlen rc us L) (hnd : us.Nodup) :
    entryOK (reAdd rc us segs L) us segs L := by
  intro u hu
  refine ⟨_, reAdd_find rc segs L us ⟨L, []⟩ rfl hnd u hu, ?_, rfl⟩
  cases hf : rc.find u with
  | none => simp [hf]
  | some e => simp [hf, hwf u hu e hf]

theorem reAdd_gcsl {τ : Type} {rc : RequestsCache τ} {us : List String}
    {segs : String → Nat} {L : Nat} (hnd : us.Nodup) (u : String) (hu : u ∈ us)
    (l : Nat) :
    (reAdd rc us segs L).get_cache_seq_len u l = rc.get_cache_seq_len u l := by
  rw [RequestsCache.get_cache_seq_len, RequestsCache.get_cache_seq_len,
    RequestsCache.get_layer_idx_kv_cache, RequestsCache.get_layer_idx_kv_cache,
    reAdd_find_mem rc us segs L hnd u hu]
  cases hf : rc.find u with
  | none =>
    simp [List.getElem?_replicate]
    by_cases hl : l < L <;> simp [hl, KVCache.len]
  | some e => simp

theorem runStep_gcsl {τ : Type} {rc : RequestsCache τ} {us : List String}
    {segs : String → Nat} {L : Nat} (ks vs : Nat → List τ)
    (hnd : us.Nodup) (hwf : WFlen rc us L)
    (hks : ∀ l, l < L → (ks l).length = (us.map segs).sum) :
    ∀ u ∈ us, ∀ l, l < L →
      (runStep rc us segs ks vs L).get_cache_seq_len u l
        = rc.get_cache_seq_len u l + segs u := by
  intro u hu l hl
  have h := runLayers_gcsl ks vs hnd (reAdd_entryOK hwf hnd) hks L (le_refl L) u hu l hl
  rw [runStep, h, reAdd_gcsl hnd u hu l, if_pos hl]

theorem runStep_WFlen {τ : Type} {rc : RequestsCache τ} {us : List String}
    {segs : String → Nat} {L : Nat} (ks vs : Nat → List τ)
    (hnd : us.Nodup) (hwf : WFlen rc us L) :
    WFlen (runStep rc us segs ks vs L) us L := by
  intro u hu e he
  obtain ⟨e', he', hlen, _⟩ :=
    runLayers_entryOK ks vs (reAdd_entryOK hwf hnd) L u hu
  rw [runStep] at he
  rw [he] at he'
  injection he' with hh
  rw [hh]
  exact hlen

theorem runSteps_gcsl {τ : Type} {us : List String} {L : Nat} :
    ∀ (steps : List (StepData τ)) (rc : RequestsCache τ),
      us.Nodup → WFlen rc us L →
      (∀ st ∈ steps, ∀ l, l < L → (st.ks l).length = (us.map st.segs).sum) →
      ∀ u ∈ us, ∀ l, l < L →
        (runSteps us L rc steps).get_cache_seq_len u l
          = rc.get_cache_seq_len u l + (steps.map (fun st => st.segs u)).sum
  | [], rc, _, _, _, u, hu, l, hl => by simp [runSteps]
  | st :: rest, rc, hnd, hwf, hks, u, hu, l, hl => by
    have h1 := runStep_gcsl st.ks st.vs hnd hwf
      (fun l hl => hks st (List.mem_cons_self st rest) l hl) u hu l hl
    have h2 := runSteps_gcsl rest (runStep rc us st.segs st.ks st.vs L) hnd
      (runStep_WFlen st.ks st.vs hnd hwf)
      (fun s hs => hks s (List.mem_cons_of_mem st hs)) u hu l hl
    rw [runSteps, h2, h1, List.map_cons, List.sum_cons]
    omega

/-- C2. KV-cache length invariant. Part 1: after `update` for layer ℓ, each
request's cached length at ℓ grows by exactly its segment length. Part 2
(driver modelled from the spec): over full forward steps that call `update`
once per owned layer in order, starting from no cache, every owned layer's
cached length equals the sum of the request's segment lengths over all steps
so far — in particular it is the same for every owned layer. -/
theorem C2_cache_length_invariant {τ : Type} :
    (∀ (rc : RequestsCache τ) (ks vs : List τ) (us : List String) (layer : Nat),
        us.Nodup →
        (∀ u ∈ us, ∃ e, rc.find u = some e ∧ layer < e.cache.length) →
        ks.length = (us.map rc.get_seq_len).sum →
        ∀ u ∈ us, (rc.update ks vs us layer).2.get_cache_seq_len u layer
          = rc.get_cache_seq_len u layer + rc.get_seq_len u)
    ∧ (∀ (us : List String) (L : Nat) (steps : List (StepData τ)) (u : String),
        us.Nodup → u ∈ us →
        (∀ st ∈ steps, ∀ l, l < L → (st.ks l).length = (us.map st.segs).sum) →
        ∀ l, l < L →
          (runSteps us L (⟨L, []⟩ : RequestsCache τ) steps).get_cache_seq_len u l
            = (steps.map (fun st => st.segs u)).sum) := by
  constructor
  · intro rc ks vs us layer hnd hmem hlen u hu
    exact updateFrom_increment us rc ks vs layer 0 hnd hmem
      (by rw [List.drop_zero, hlen]) u hu
  · intro us L steps u hnd hu hks l hl
    have hwf : WFlen (⟨L, []⟩ : RequestsCache τ) us L := by
      intro w hw e he
      exact absurd he (by simp [RequestsCache.find, alookup])
    have h := runSteps_gcsl steps ⟨L, []⟩ hnd hwf hks u hu l hl
    have h0 : (⟨L, []⟩ : RequestsCache τ).get_cache_seq_len u l = 0 := rfl
    rw [h, h0, Nat.zero_add]

/-- Concrete two-layer cache with a single fresh request "x" of segment
length 1. -/
def rcW2 : RequestsCache Nat := (⟨2, []⟩ : RequestsCache Nat).add "x" 1 none

theorem C2_cache_length_invariant_witness :
    ((["x"] : List String).Nodup
      ∧ (∀ u ∈ ["x"], ∃ e, rcW2.find u = some e ∧ 1 < e.cache.length)
      ∧ ([7] : List Nat).length = (["x"].map rcW2.get_seq_len).sum
      ∧ (∀ u ∈ ["x"], (rcW2.update [7] [8] ["x"] 1).2.get_cache_seq_len u 1
          = rcW2.get_cache_seq_len u 1 + rcW2.get_seq_len u))
    ∧ ((["r"] : List String).Nodup
      ∧ "r" ∈ ["r"]
      ∧ (∀ st ∈ ([⟨fun _ => 2, fun _ => [10, 11], fun _ => [20, 21]⟩,
            ⟨fun _ => 1, fun _ => [12], fun _ => [22]⟩] : List (StepData Nat)),
          ∀ l, l < 2 → (st.ks l).length = (["r"].map st.segs).sum)
      ∧ (0 : Nat) < 2
      ∧ (runSteps ["r"] 2 (⟨2, []⟩ : RequestsCache Nat)
            [⟨fun _ => 2, fun _ => [10, 11], fun _ => [20, 21]⟩,
             ⟨fun _ => 1, fun _ => [12], fun _ => [22]⟩]).get_cache_seq_len "r" 0
          = (([⟨fun _ => 2, fun _ => [10, 11], fun _ => [20, 21]⟩,
              ⟨fun _ => 1, fun _ => [12], fun _ => [22]⟩] : List (StepData Nat)).map
              (fun st => st.segs "r")).sum) := by
  have h1 : (["x"] : List String).Nodup := by decide
  have h2 : ∀ u ∈ ["x"], ∃ e, rcW2.find u = some e ∧ 1 < e.cache.length := by
    intro u hu
    simp only [List.mem_cons, List.not_mem_nil, or_false] at hu
    subst hu
    exact ⟨⟨[⟨none, none⟩, ⟨none, none⟩], 1⟩, by decide, by decide⟩
  have h3 : ([7] : List Nat).length = (["x"].map rcW2.get_seq_len).sum := by decide
  have g1 : (["r"] : List String).Nodup := by decide
  have g2 : "r" ∈ ["r"] := by decide
  have g3 : ∀ st ∈ ([⟨fun _ => 2, fun _ => [10, 11], fun _ => [20, 21]⟩,
        ⟨fun _ => 1, fun _ => [12], fun _ => [22]⟩] : List (StepData Nat)),
      ∀ l, l < 2 → (st.ks l).length = (["r"].map st.segs).sum := by
    intro st hst l hl
    rcases List.mem_cons.mp hst with rfl | hst
    · rfl
    · rcases List.mem_cons.mp hst with rfl | hst
      · rfl
      · exact absurd hst (List.not_mem_nil st)
  have g4 : (0 : Nat) < 2 := by decide
  exact ⟨⟨h1, h2, h3, (C2_cache_length_invariant (τ := Nat)).1 rcW2 [7] [8] ["x"] 1
      h1 h2 h3⟩,
    ⟨g1, g2, g3, g4, (C2_cache_length_invariant (τ := Nat)).2 ["r"] 2
      [⟨fun _ => 2, fun _ => [10, 11], fun _ => [20, 21]⟩,
       ⟨fun _ => 1, fun _ => [12], fun _ => [22]⟩] "r" g1 g2 g3 0 g4⟩⟩

/-! ## C3: packed-batch attention mask (src/tllm/models/mlx_helper.py,
build_mlx_mask) -/

/-- One request's mask block: `mx.tril(mx.ones((L, S)), k=0)` when `L > 1`
(entry `(i, j)` is kept iff `j ≤ i`), else all-ones. -/
def blockMask (L S : Nat) (i j : Nat) : Bool :=
  if 1 < L then decide (j ≤ i) else true

/-- The placement loop writing each block at running row/column offsets into
a boolean matrix initialized to zeros (`False` outside every block). -/
def combinedMask : List (Nat × Nat) → Nat → Nat → Nat → Nat → Bool
  | [], _, _, _, _ => false
  | (L, S) :: rest, l_index, r_index, r, c =>
    if l_index ≤ r ∧ r < l_index + L ∧ r_index ≤ c ∧ c < r_index + S then
      blockMask L S (r - l_index) (c - r_index)
    else combinedMask rest (l_index + L) (r_index + S) r c

/-- Entry `(r, c)` of the final mask: `mx.where(combined, 0, -inf)`, with
`⊥ : WithBot ℤ` standing for `-inf`. -/
def build_mlx_mask (seq_len_list : List (Nat × Nat)) (r c : Nat) : WithBot ℤ :=
  if combinedMask seq_len_list 0 0 r c then 0 else ⊥

/-- Row offset of block `b`: total query rows of the preceding blocks. -/
def rowOff (pairs : List (Nat × Nat)) (b : Nat) : Nat :=
  ((pairs.take b).map Prod.fst).sum

/-- Column offset of block `b`: total key columns of the preceding blocks. -/
def colOff (pairs : List (Nat × Nat)) (b : Nat) : Nat :=
  ((pairs.take b).map Prod.snd).sum

theorem rowOff_zero (pairs : List (Nat × Nat)) : rowOff pairs 0 = 0 := rfl

theorem colOff_zero (pairs : List (Nat × Nat)) : colOff pairs 0 = 0 := rfl

theorem rowOff_cons_succ (L0 S0 : Nat) (rest : List (Nat × Nat)) (b : Nat) :
    rowOff ((L0, S0) :: rest) (b + 1) = L0 + rowOff rest b := by
  simp [rowOff, List.take_succ_cons]

theorem colOff_cons_succ (L0 S0 : Nat) (rest : List (Nat × Nat)) (b : Nat) :
    colOff ((L0, S0) :: rest) (b + 1) = S0 + colOff rest b := by
  simp [colOff, List.take_succ_cons]

theorem combinedMask_row_below :
    ∀ (pairs : List (Nat × Nat)) (li ri r c : Nat), r < li →
      combinedMask pairs li ri r c = false
  | [], _, _, _, _, _ => rfl
  | (L0, S0) :: rest, li, ri, r, c, h => by
    rw [combinedMask, if_neg (by omega)]
    exact combinedMask_row_below rest (li + L0) (ri + S0) r c (by omega)

theorem combinedMask_col_below :
    ∀ (pairs : List (Nat × Nat)) (li ri r c : Nat), c < ri →
      combinedMask pairs li ri r c = false
  | [], _, _, _, _, _ => rfl
  | (L0, S0) :: rest, li, ri, r, c, h => by
    rw [combinedMask, if_neg (by omega)]
    exact combinedMask_col_below rest (li + L0) (ri + S0) r c (by omega)

theorem combinedMask_in_block :
    ∀ (pairs : List (Nat × Nat)) (b L S i j li ri : Nat),
      pairs[b]? = some (L, S) → i < L → j < S →
      combinedMask pairs li ri (li + rowOff pairs b + i) (ri + colOff pairs b + j)
        = blockMask L S i j
  | [], b, _, _, _, _, _, _, hget, _, _ => by simp at hget
  | (L0, S0) :: rest, 0, L, S, i, j, li, ri, hget, hi, hj => by
    rw [List.getElem?_cons_zero] at hget
    injection hget with hg
    injection hg with hL hS
    subst hL
    subst hS
    rw [rowOff_zero, colOff_zero, combinedMask, if_pos (by omega)]
    have h1 : li + 0 + i - li = i := by omega
    have h2 : ri + 0 + j - ri = j := by omega
    rw [h1, h2]
  | (L0, S0) :: rest, b + 1, L, S, i, j, li, ri, hget, hi, hj => by
    rw [List.getElem?_cons_succ] at hget
    rw [rowOff_cons_succ, colOff_cons_succ, combinedMask, if_neg (by omega)]
    have hr : li + (L0 + rowOff rest b) + i = li + L0 + rowOff rest b + i := by omega
    have hc : ri + (S0 + colOff rest b) + j = ri + S0 + colOff rest b + j := by omega
    rw [hr, hc]
    exact combinedMask_in_block rest b L S i j (li + L0) (ri + S0) hget hi hj

theorem combinedMask_cross_block :
    ∀ (pairs : List (Nat × Nat)) (b b' L S L' S' i j li ri : Nat), b ≠ b' →
      pairs[b]? = some (L, S) → pairs[b']? = some (L', S') → i < L → j < S' →
      combinedMask pairs li ri (li + rowOff pairs b + i) (ri + colOff pairs b' + j)
        = false
  | [], b, _, _, _, _, _, _, _, _, _, _, hget, _, _, _ => by simp at hget
  | (L0, S0) :: rest, 0, 0, L, S, L', S', i, j, li, ri, hne, _, _, _, _ =>
    absurd rfl hne
  | (L0, S0) :: rest, 0, b' + 1, L, S, L', S', i, j, li, ri, _, hget, hget', hi, hj => by
    rw [List.getElem?_cons_zero] at hget
    injection hget with hg
    injection hg with hL hS
    subst hL
    subst hS
    rw [List.getElem?_cons_succ] at hget'
    rw [rowOff_zero, colOff_cons_succ, combinedMask, if_neg (by omega)]
    exact combinedMask_row_below rest _ _ _ _ (by omega)
  | (L0, S0) :: rest, b + 1, 0, L, S, L', S', i, j, li, ri, _, hget, hget', hi, hj => by
    rw [List.getElem?_cons_succ] at hget
    rw [List.getElem?_cons_zero] at hget'
    injection hget' with hg
    injection hg with hL hS
    subst hL
    subst hS
    rw [colOff_zero, rowOff_cons_succ, combinedMask, if_neg (by omega)]
    exact combinedMask_col_below rest _ _ _ _ (by omega)
  | (L0, S0) :: rest, b + 1, b' + 1, L, S, L', S', i, j, li, ri, hne, hget, hget', hi, hj => by
    rw [List.getElem?_cons_succ] at hget hget'
    rw [rowOff_cons_succ, colOff_cons_succ, combinedMask, if_neg (by omega)]
    have hr : li + (L0 + rowOff rest b) + i = li + L0 + rowOff rest b + i := by omega
    have hc : ri + (S0 + colOff rest b') + j = ri + S0 + colOff rest b' + j := by omega
    rw [hr, hc]
    exact combinedMask_cross_block rest b b' L S L' S' i j (li + L0) (ri + S0)
      (fun hh => hne (by omega)) hget hget' hi hj

/-- C3 (amended). The mask is block-diagonal by request; inside the block of
a request with `L > 1`, query row `i` allows exactly the columns `j ≤ i`
(matching `j ≤ i + (S − L)` only when `S = L`); a block with `L = 1` allows
all of its `S` columns; allowed entries are 0 and all other entries are
`−∞`. -/
theorem C3_mask_block_diagonal_causal :
    (∀ (pairs : List (Nat × Nat)) (b L S i j : Nat),
        pairs[b]? = some (L, S) → i < L → j < S →
        build_mlx_mask pairs (rowOff pairs b + i) (colOff pairs b + j)
          = if L = 1 ∨ j ≤ i then (0 : WithBot ℤ) else ⊥)
    ∧ (∀ (pairs : List (Nat × Nat)) (b b' L S L' S' i j : Nat), b ≠ b' →
        pairs[b]? = some (L, S) → pairs[b']? = some (L', S') → i < L → j < S' →
        build_mlx_mask pairs (rowOff pairs b + i) (colOff pairs b' + j) = ⊥) := by
  constructor
  · intro pairs b L S i j hget hi hj
    have h := combinedMask_in_block pairs b L S i j 0 0 hget hi hj
    rw [Nat.zero_add, Nat.zero_add] at h
    have hbm : blockMask L S i j = true ↔ (L = 1 ∨ j ≤ i) := by
      rw [blockMask]
      by_cases hL : 1 < L
      · simp only [hL, if_true, decide_eq_true_eq]
        constructor
        · exact fun hji => Or.inr hji
        · intro hor
          rcases hor with h1 | h2
          · omega
          · exact h2
      · have hL1 : L = 1 := by omega
        simp [hL, hL1]
    by_cases hb : blockMask L S i j = true
    · rw [build_mlx_mask, h, if_pos hb, if_pos (hbm.mp hb)]
    · have hnot : ¬(L = 1 ∨ j ≤ i) := fun hh => hb (hbm.mpr hh)
      rw [build_mlx_mask, h, if_neg hb, if_neg hnot]
  · intro pairs b b' L S L' S' i j hne hget hget' hi hj
    have h := combinedMask_cross_block pairs b b' L S L' S' i j 0 0 hne hget hget' hi hj
    rw [Nat.zero_add, Nat.zero_add] at h
    rw [build_mlx_mask, h]
    rfl

/-- C3 counterexample to the claim as stated: for the single request block
`(L, S) = (2, 3)` (2 new queries over 1 cached key), query row `i = 0` has
absolute position `i + (S − L) = 1`, so the claimed formula
`j ≤ i + (S − L)` allows key column `j = 1`; the built mask assigns `−∞`
there. -/
theorem C3_counterexample :
    (1 : Nat) ≤ 0 + (3 - 2)
      ∧ build_mlx_mask [(2, 3)] (rowOff [(2, 3)] 0 + 0) (colOff [(2, 3)] 0 + 1) = ⊥
      ∧ build_mlx_mask [(2, 3)] (rowOff [(2, 3)] 0 + 0) (colOff [(2, 3)] 0 + 1)
          ≠ (0 : WithBot ℤ) := by
  refine ⟨by decide, ?_, ?_⟩ <;> decide

theorem C3_mask_witness :
    (([(2, 2), (1, 3)] : List (Nat × Nat))[0]? = some (2, 2)
      ∧ (1 : Nat) < 2 ∧ (0 : Nat) < 2
      ∧ build_mlx_mask [(2, 2), (1, 3)] (rowOff [(2, 2), (1, 3)] 0 + 1)
          (colOff [(2, 2), (1, 3)] 0 + 0)
        = if (2 : Nat) = 1 ∨ (0 : Nat) ≤ 1 then (0 : WithBot ℤ) else ⊥)
    ∧ ((0 : Nat) ≠ 1
      ∧ ([(2, 2), (1, 3)] : List (Nat × Nat))[0]? = some (2, 2)
      ∧ ([(2, 2), (1, 3)] : List (Nat × Nat))[1]? = some (1, 3)
      ∧ (0 : Nat) < 2 ∧ (0 : Nat) < 3
      ∧ build_mlx_mask [(2, 2), (1, 3)] (rowOff [(2, 2), (1, 3)] 0 + 0)
          (colOff [(2, 2), (1, 3)] 1 + 0) = ⊥) :=
  ⟨⟨by decide, by decide, by decide,
      C3_mask_block_diagonal_causal.1 [(2, 2), (1, 3)] 0 2 2 1 0
        (by decide) (by decide) (by decide)⟩,
    ⟨by decide, by decide, by decide, by decide, by decide,
      C3_mask_block_diagonal_causal.2 [(2, 2), (1, 3)] 0 1 2 2 1 3 0 0
        (by decide) (by decide) (by decide) (by decide) (by decide)⟩⟩

/-! ## CacheManager (src/tllm/commons/cache.py, class CacheManager)

Wall-clock instants (`time.time()`) are passed in explicitly as rationals. -/

structure CMEntry (τ : Type) where
  cache : List (KVCache τ)
  ts : ℚ
  seq_len : Nat
deriving DecidableEq

structure CacheManager (τ : Type) where
  max_alive_time : ℚ
  cache_dict : List (String × CMEntry τ)
deriving DecidableEq

/-- `CacheManager.get`: a pure read returning `(cache, seq_len)`; paired with
the (unchanged) state to make the absence of mutation explicit. -/
def CacheManager.get {τ : Type} (cm : CacheManager τ) (key : String) :
    Option (List (KVCache τ) × Nat) × CacheManager τ :=
  ((alookup cm.cache_dict key).map (fun e => (e.cache, e.seq_len)), cm)

/-- `CacheManager.set`: stores the value with a fresh timestamp `now`. -/
def CacheManager.set {τ : Type} (cm : CacheManager τ) (key : String)
    (value : List (KVCache τ)) (seq_len : Nat) (now : ℚ) : CacheManager τ :=
  { cm with cache_dict := aset cm.cache_dict key ⟨value, now, seq_len⟩ }

/-- `CacheManager.check_alive`: drops every entry with
`now - ts > max_alive_time`. -/
def CacheManager.check_alive {τ : Type} (cm : CacheManager τ) (now : ℚ) :
    CacheManager τ :=
  { cm with
    cache_dict := cm.cache_dict.filter
      (fun p => ! decide (cm.max_alive_time < now - p.2.ts)) }

/-! ## C4: packed position ids (src/tllm/models/llama.py,
build_forward_cache) -/

/-- The position-id construction of `build_forward_cache`: per request, a
request already present in the cache manager contributes the single position
`cache_seq_len` while a new request contributes `arange(q_len)`; the
per-request tensors are concatenated. A `SeqInput` is modelled as its zipped
`(uuid, q_len)` pairs. -/
def buildPositionIds {τ : Type} (cm : CacheManager τ) :
    List (String × Nat) → List Nat
  | [] => []
  | (uuid, q_len) :: rest =>
    (match alookup cm.cache_dict uuid with
      | some e => [e.seq_len]
      | none => List.range q_len) ++ buildPositionIds cm rest

/-- C4 (amended). Restricted to SeqInputs where every request that already
has a cache entry carries segment length 1 (the decode shape the runtime
produces), the packed position ids have length `Σ segment_length` and
consist, request by request in order, of `0, …, segment_length−1` for a
prefill request and of the single stored position `prev_cached_len` for a
decode request. -/
theorem C4_position_ids {τ : Type} (cm : CacheManager τ)
    (seq_input : List (String × Nat))
    (hdec : ∀ p ∈ seq_input, (alookup cm.cache_dict p.1).isSome → p.2 = 1) :
    (buildPositionIds cm seq_input).length = (seq_input.map Prod.snd).sum
    ∧ buildPositionIds cm seq_input
      = (seq_input.map (fun p =>
          match alookup cm.cache_dict p.1 with
          | some e => [e.seq_len]
          | none => List.range p.2)).flatten := by
  induction seq_input with
  | nil => exact ⟨rfl, rfl⟩
  | cons p rest ih =>
    obtain ⟨u, q⟩ := p
    have ihh := ih (fun p hp => hdec p (List.mem_cons_of_mem _ hp))
    constructor
    · show ((match alookup cm.cache_dict u with
          | some e => [e.seq_len]
          | none => List.range q) ++ buildPositionIds cm rest).length = _
      rw [List.length_append, ihh.1, List.map_cons, List.sum_cons]
      cases hf : alookup cm.cache_dict u with
      | none => simp
      | some e =>
        have : q = 1 := hdec (u, q) (List.mem_cons_self _ _) (by rw [hf]; rfl)
        simp [this]
    · show (match alookup cm.cache_dict u with
          | some e => [e.seq_len]
          | none => List.range q) ++ buildPositionIds cm rest = _
      rw [List.map_cons, List.flatten_cons, ihh.2]

/-- C4 counterexample to the claim as stated: a request with an existing
cache entry (3 cached rows) and segment length 2 contributes a single
position, so the packed position ids have length 1, not
`Σ segment_length = 2`. -/
theorem C4_counterexample :
    (buildPositionIds (⟨60, [("a", ⟨[], 0, 3⟩)]⟩ : CacheManager Nat)
        [("a", 2)]).length
      = 1
    ∧ ([(("a", 2) : String × Nat)].map Prod.snd).sum = 2
    ∧ (buildPositionIds (⟨60, [("a", ⟨[], 0, 3⟩)]⟩ : CacheManager Nat)
        [("a", 2)]).length
      ≠ ([(("a", 2) : String × Nat)].map Prod.snd).sum := by
  refine ⟨?_, ?_, ?_⟩ <;> decide

theorem C4_position_ids_witness :
    (∀ p ∈ ([("a", 1), ("b", 2)] : List (String × Nat)),
        (alookup (⟨60, [("a", ⟨[], 0, 3⟩)]⟩ : CacheManager Nat).cache_dict
            p.1).isSome → p.2 = 1)
    ∧ ((buildPositionIds (⟨60, [("a", ⟨[], 0, 3⟩)]⟩ : CacheManager Nat)
          [("a", 1), ("b", 2)]).length
        = (([("a", 1), ("b", 2)] : List (String × Nat)).map Prod.snd).sum
      ∧ buildPositionIds (⟨60, [("a", ⟨[], 0, 3⟩)]⟩ : CacheManager Nat)
          [("a", 1), ("b", 2)]
        = (([("a", 1), ("b", 2)] : List (String × Nat)).map (fun p =>
            match alookup (⟨60, [("a", ⟨[], 0, 3⟩)]⟩ : CacheManager Nat).cache_dict
                p.1 with
            | some e => [e.seq_len]
            | none => List.range p.2)).flatten) := by
  have h : ∀ p ∈ ([("a", 1), ("b", 2)] : List (String × Nat)),
      (alookup (⟨60, [("a", ⟨[], 0, 3⟩)]⟩ : CacheManager Nat).cache_dict
          p.1).isSome → p.2 = 1 := by
    intro p hp
    rcases List.mem_cons.mp hp with rfl | hp
    · intro _
      rfl
    · rcases List.mem_cons.mp hp with rfl | hp
      · intro hs
        exact absurd hs (by decide)
      · exact absurd hp (List.not_mem_nil p)
  exact ⟨h, C4_position_ids (⟨60, [("a", ⟨[], 0, 3⟩)]⟩ : CacheManager Nat)
    [("a", 1), ("b", 2)] h⟩

/-! ## C9: `get` is a pure read; TTL eviction depends only on the last
`set`'s timestamp -/

theorem alookup_filter_none {β : Type} (f : String × β → Bool) :
    ∀ (l : List (String × β)) (k : String), alookup l k = none →
      alookup (l.filter f) k = none
  | [], _, _ => rfl
  | (k0, v0) :: rest, k, h => by
    by_cases hk : k0 = k
    · rw [alookup, if_pos hk] at h
      exact absurd h (by simp)
    · rw [alookup, if_neg hk] at h
      rw [List.filter_cons]
      by_cases hf : f (k0, v0)
      · rw [if_pos (by simpa using hf), alookup, if_neg hk]
        exact alookup_filter_none f rest k h
      · rw [if_neg (by simpa using hf)]
        exact alookup_filter_none f rest k h

theorem alookup_some_mem_keys {β : Type} :
    ∀ (l : List (String × β)) (k : String) (w : β), alookup l k = some w →
      k ∈ l.map Prod.fst
  | [], k, w, h => by simp [alookup] at h
  | (k0, v0) :: rest, k, w, h => by
    by_cases hk : k0 = k
    · subst hk
      rw [List.map_cons]
      exact List.mem_cons_self _ _
    · rw [alookup, if_neg hk] at h
      rw [List.map_cons]
      exact List.mem_cons_of_mem _ (alookup_some_mem_keys rest k w h)

theorem alookup_filter_unique {β : Type} (f : String × β → Bool) :
    ∀ (l : List (String × β)) (k : String), (l.map Prod.fst).Nodup →
      alookup (l.filter f) k
        = match alookup l k with
          | none => none
          | some v => if f (k, v) then some v else none
  | [], _, _ => rfl
  | (k0, v0) :: rest, k, hnd => by
    rw [List.map_cons] at hnd
    obtain ⟨hk0, hndr⟩ := List.nodup_cons.mp hnd
    by_cases hk : k0 = k
    · subst hk
      have hnone : alookup rest k0 = none := by
        cases hl : alookup rest k0 with
        | none => rfl
        | some w => exact absurd (alookup_some_mem_keys rest k0 w hl) hk0
      have hrhs : alookup ((k0, v0) :: rest) k0 = some v0 := by
        rw [alookup, if_pos rfl]
      rw [hrhs, List.filter_cons]
      by_cases hf : f (k0, v0)
      · rw [if_pos (by simpa using hf)]
        have hlhs : alookup ((k0, v0) :: rest.filter f) k0 = some v0 := by
          rw [alookup, if_pos rfl]
        rw [hlhs]
        simp [hf]
      · rw [if_neg (by simpa using hf), alookup_filter_none f rest k0 hnone]
        simp [hf]
    · have hrhs : alookup ((k0, v0) :: rest) k = alookup rest k := by
        rw [alookup, if_neg hk]
      rw [hrhs, List.filter_cons]
      by_cases hf : f (k0, v0)
      · rw [if_pos (by simpa using hf)]
        have hlhs : alookup ((k0, v0) :: rest.filter f) k
            = alookup (rest.filter f) k := by
          rw [alookup, if_neg hk]
        rw [hlhs]
        exact alookup_filter_unique f rest k hndr
      · rw [if_neg (by simpa using hf)]
        exact alookup_filter_unique f rest k hndr

theorem keys_aset_subset {β : Type} :
    ∀ (l : List (String × β)) (k : String) (v : β) (k' : String),
      k' ∈ (aset l k v).map Prod.fst → k' ∈ l.map Prod.fst ∨ k' = k
  | [], k, v, k', h => by
    rw [aset, List.map_cons] at h
    rcases List.mem_cons.mp h with h | h
    · exact Or.inr h
    · exact absurd h (List.not_mem_nil _)
  | (k0, v0) :: rest, k, v, k', h => by
    by_cases hk : k0 = k
    · rw [aset, if_pos hk, List.map_cons] at h
      rcases List.mem_cons.mp h with h | h
      · subst h
        exact Or.inl (by rw [List.map_cons]; exact List.mem_cons_self _ _)
      · exact Or.inl (by rw [List.map_cons]; exact List.mem_cons_of_mem _ h)
    · rw [aset, if_neg hk, List.map_cons] at h
      rcases List.mem_cons.mp h with h | h
      · subst h
        exact Or.inl (by rw [List.map_cons]; exact List.mem_cons_self _ _)
      · rcases keys_aset_subset rest k v k' h with h' | h'
        · exact Or.inl (by rw [List.map_cons]; exact List.mem_cons_of_mem _ h')
        · exact Or.inr h'

theorem aset_keys_nodup {β : Type} :
    ∀ (l : List (String × β)) (k : String) (v : β),
      (l.map Prod.fst).Nodup → ((aset l k v).map Prod.fst).Nodup
  | [], k, v, _ => by simp [aset]
  | (k0, v0) :: rest, k, v, hnd => by
    rw [List.map_cons] at hnd
    obtain ⟨hk0, hndr⟩ := List.nodup_cons.mp hnd
    by_cases hk : k0 = k
    · rw [aset, if_pos hk, List.map_cons]
      exact List.nodup_cons.mpr ⟨hk0, hndr⟩
    · rw [aset, if_neg hk, List.map_cons]
      refine List.nodup_cons.mpr ⟨?_, aset_keys_nodup rest k v hndr⟩
      intro hmem
      rcases keys_aset_subset rest k v k0 hmem with h' | h'
      · exact hk0 h'
      · exact hk h'

/-- C9. `CacheManager.get` does not modify the state (in particular it does
not refresh the entry's timestamp); the timestamp is written by `set`; and
`check_alive` at time `now` removes exactly the entries whose last `set`
happened more than `max_alive_time` before `now` — even after any number of
intervening `get`s. -/
theorem C9_get_is_pure_and_ttl {τ : Type} :
    (∀ (cm : CacheManager τ) (k : String), (cm.get k).2 = cm)
    ∧ (∀ (cm : CacheManager τ) (k : String) (v : List (KVCache τ)) (s : Nat)
        (now : ℚ), alookup (cm.set k v s now).cache_dict k = some ⟨v, now, s⟩)
    ∧ (∀ (cm : CacheManager τ) (now : ℚ) (k : String),
        (cm.cache_dict.map Prod.fst).Nodup →
        alookup (cm.check_alive now).cache_dict k
          = match alookup cm.cache_dict k with
            | none => none
            | some e => if cm.max_alive_time < now - e.ts then none else some e)
    ∧ (∀ (cm : CacheManager τ) (k : String) (v : List (KVCache τ)) (s : Nat)
        (tset now : ℚ), (cm.cache_dict.map Prod.fst).Nodup →
        alookup (((((cm.set k v s tset).get k).2.get k).2).check_alive
            now).cache_dict k
          = if cm.max_alive_time < now - tset then none
            else some ⟨v, tset, s⟩) := by
  refine ⟨fun cm k => rfl, fun cm k v s now => alookup_aset_self _ _ _, ?_, ?_⟩
  · intro cm now k hnd
    have h := alookup_filter_unique
      (fun p => ! decide (cm.max_alive_time < now - p.2.ts)) cm.cache_dict k hnd
    rw [CacheManager.check_alive]
    rw [h]
    cases hl : alookup cm.cache_dict k with
    | none => rfl
    | some e =>
      by_cases hc : cm.max_alive_time < now - e.ts
      · simp [hc]
      · simp [hc]
  · intro cm k v s tset now hnd
    have hset_nodup : (((cm.set k v s tset).cache_dict).map Prod.fst).Nodup :=
      aset_keys_nodup cm.cache_dict k ⟨v, tset, s⟩ hnd
    have h := alookup_filter_unique
      (fun p => ! decide (cm.max_alive_time < now - p.2.ts))
      (cm.set k v s tset).cache_dict k hset_nodup
    show alookup (((cm.set k v s tset).cache_dict).filter
        (fun p => ! decide (cm.max_alive_time < now - p.2.ts))) k = _
    rw [h]
    simp only [CacheManager.set]
    rw [alookup_aset_self]
    by_cases hc : cm.max_alive_time < now - tset
    · simp [hc]
    · simp [hc]

theorem C9_get_is_pure_and_ttl_witness :
    ((([("old", (⟨[], 0, 5⟩ : CMEntry Nat))] : List (String × CMEntry Nat)).map
        Prod.fst).Nodup
      ∧ alookup (((((⟨60, [("old", ⟨[], 0, 5⟩)]⟩ : CacheManager Nat).set "k" []
              3 100).get "k").2.get "k").2.check_alive 161).cache_dict "k"
        = (if (60 : ℚ) < 161 - 100 then none else some ⟨[], 100, 3⟩))
    ∧ alookup (((((⟨60, [("old", ⟨[], 0, 5⟩)]⟩ : CacheManager Nat).set "k" []
            3 100).get "k").2.get "k").2.check_alive 160).cache_dict "k"
      = (if (60 : ℚ) < 160 - 100 then none else some ⟨[], 100, 3⟩) := by
  have hnd : (([("old", (⟨[], 0, 5⟩ : CMEntry Nat))] :
      List (String × CMEntry Nat)).map Prod.fst).Nodup := by decide
  exact ⟨⟨hnd, (C9_get_is_pure_and_ttl (τ := Nat)).2.2.2
      (⟨60, [("old", ⟨[], 0, 5⟩)]⟩ : CacheManager Nat) "k" [] 3 100 161 hnd⟩,
    (C9_get_is_pure_and_ttl (τ := Nat)).2.2.2
      (⟨60, [("old", ⟨[], 0, 5⟩)]⟩ : CacheManager Nat) "k" [] 3 100 160 hnd⟩

/-! ## C10: `SequenceRequestData.to_request_output`
(src/tllm/models/protocol.py) -/

/-- `CompletionOutput.token_ids` is dynamically typed in the source: the
stopped branch stores a tuple of token ids, the streaming branch stores the
single element `generate_ids[index]`. -/
inductive TokenField where
  | single (t : Int)
  | tup (ts : List Int)
deriving DecidableEq

structure SamplingParams where
  n : Nat
deriving DecidableEq

structure CompletionOutput where
  index : Nat
  text : String
  token_ids : TokenField
  finish_reason : Option String
deriving DecidableEq

structure RequestOutput where
  request_id : String
  prompt : Option String
  prompt_token_ids : List Int
  outputs : List CompletionOutput
  finished : Bool
deriving DecidableEq

structure SequenceRequestData where
  request_id : String
  sampling_params : SamplingParams
  input_ids : List Int
  finish_reason_list : List (Option String)
  output_ids : List Int
  output_text : String
  generate_ids : List Int
  generate_texts : List String
  is_stop : Bool

/-- `to_request_output`. Python's list indexing is modelled with `getD`
(after `__post_init__`, `finish_reason_list` has length `sampling_params.n`,
so the defaults are never reached on runtime states). -/
def SequenceRequestData.to_request_output (d : SequenceRequestData) :
    RequestOutput :=
  if !d.is_stop then
    { request_id := d.request_id, prompt := none, prompt_token_ids := d.input_ids,
      outputs := (List.range d.sampling_params.n).map (fun index =>
        { index := index, text := d.generate_texts.getD index "",
          token_ids := TokenField.single (d.generate_ids.getD index 0),
          finish_reason := d.finish_reason_list.getD index none }),
      finished := d.is_stop }
  else
    { request_id := d.request_id, prompt := none, prompt_token_ids := d.input_ids,
      outputs := (List.range d.sampling_params.n).map (fun index =>
        { index := index, text := d.output_text,
          token_ids := TokenField.tup d.output_ids,
          finish_reason := d.finish_reason_list.getD index none }),
      finished := true }

/-- C10. On a stopped request with `sampling_params.n = n`, the output is
finished and carries exactly `n` completions that all share the single
`output_text` and the single `output_ids` tuple, differing only in `index`
(which runs over `0, …, n−1`) and `finish_reason`: the `n` samples are
copies of one completion, not `n` independent completions. -/
theorem C10_to_request_output_duplicates (d : SequenceRequestData)
    (h : d.is_stop = true) :
    (d.to_request_output).finished = true
    ∧ (d.to_request_output).outputs.length = d.sampling_params.n
    ∧ (∀ c ∈ (d.to_request_output).outputs,
        c.text = d.output_text
        ∧ c.token_ids = TokenField.tup d.output_ids
        ∧ c.finish_reason = d.finish_reason_list.getD c.index none)
    ∧ (d.to_request_output).outputs.map CompletionOutput.index
        = List.range d.sampling_params.n := by
  rw [SequenceRequestData.to_request_output, h]
  refine ⟨rfl, by simp, ?_, ?_⟩
  · intro c hc
    simp only [Bool.not_true, Bool.false_eq_true, if_false, List.mem_map] at hc
    obtain ⟨i, _, rfl⟩ := hc
    exact ⟨rfl, rfl, rfl⟩
  · simp only [Bool.not_true, Bool.false_eq_true, if_false, List.map_map]
    have hid : (CompletionOutput.index ∘ fun index =>
        ({ index := index, text := d.output_text,
           token_ids := TokenField.tup d.output_ids,
           finish_reason := d.finish_reason_list.getD index none } :
          CompletionOutput)) = id := rfl
    rw [hid, List.map_id]

theorem C10_to_request_output_witness :
    (⟨"r", ⟨2⟩, [1, 2], [some "stop", none], [5, 6], "hi", [9], ["x"],
        true⟩ : SequenceRequestData).is_stop = true
    ∧ (((⟨"r", ⟨2⟩, [1, 2], [some "stop", none], [5, 6], "hi", [9], ["x"],
          true⟩ : SequenceRequestData).to_request_output).finished = true
      ∧ ((⟨"r", ⟨2⟩, [1, 2], [some "stop", none], [5, 6], "hi", [9], ["x"],
          true⟩ : SequenceRequestData).to_request_output).outputs.length = 2
      ∧ (∀ c ∈ ((⟨"r", ⟨2⟩, [1, 2], [some "stop", none], [5, 6], "hi", [9], ["x"],
            true⟩ : SequenceRequestData).to_request_output).outputs,
          c.text = "hi"
          ∧ c.token_ids = TokenField.tup [5, 6]
          ∧ c.finish_reason = ([some "stop", none] : List (Option String)).getD
              c.index none)
      ∧ ((⟨"r", ⟨2⟩, [1, 2], [some "stop", none], [5, 6], "hi", [9], ["x"],
          true⟩ : SequenceRequestData).to_request_output).outputs.map
          CompletionOutput.index = List.range 2) :=
  ⟨rfl, C10_to_request_output_duplicates
    (⟨"r", ⟨2⟩, [1, 2], [some "stop", none], [5, 6], "hi", [9], ["x"], true⟩ :
      SequenceRequestData) rfl⟩

/-! ## C5: tensor-parallel MLP (src/tllm/commons/layers.py)

Linear layers act on a single token vector over a commutative ring
(`nn.Linear` computes `x @ Wᵀ`); the activation is an arbitrary elementwise
function; `comm.all_reduce` is the sum over ranks. -/

/-- Index of row/column `i` of rank `r`'s chunk inside the unsharded axis of
size `W * m` (`torch.chunk` into `W` equal parts, part `r`). -/
def rankIdx {W m : Nat} (r : Fin W) (i : Fin m) : Fin (W * m) :=
  ⟨r.val * m + i.val, by
    have hi := i.isLt
    have hr : r.val + 1 ≤ W := r.isLt
    have h2 : r.val * m + i.val < (r.val + 1) * m := by
      rw [Nat.succ_mul]
      omega
    exact Nat.lt_of_lt_of_le h2 (Nat.mul_le_mul_right m hr)⟩

/-- `nn.Linear(inn, out, bias=False)`: `y_i = Σ_j weight[i, j] * x_j`. -/
def nnLinear {R : Type} [CommRing R] {inn out : Nat}
    (weight : Fin out → Fin inn → R) (x : Fin inn → R) : Fin out → R :=
  fun i => ∑ j, weight i j * x j

/-- Column-parallel slice: `w.chunk(W, dim=0)[r]`. -/
def chunkRow {R : Type} {W m inn : Nat} (weight : Fin (W * m) → Fin inn → R)
    (r : Fin W) : Fin m → Fin inn → R :=
  fun i j => weight (rankIdx r i) j

/-- Row-parallel slice: `w.chunk(W, dim=1)[r]` (`RowParallelLayer.load_weight`). -/
def chunkCol {R : Type} {W m out : Nat} (weight : Fin out → Fin (W * m) → R)
    (r : Fin W) : Fin out → Fin m → R :=
  fun i j => weight i (rankIdx r j)

/-- `MyLlamaMLP.load_state_dict`: rank `r`'s fused gate/up weight is the
concatenation of the gate chunk and the up chunk along dim 0. -/
def gateUpCombined {R : Type} {W m H : Nat} (gateW upW : Fin (W * m) → Fin H → R)
    (r : Fin W) : Fin (m + m) → Fin H → R :=
  fun i j =>
    if hi : i.val < m then chunkRow gateW r ⟨i.val, hi⟩ j
    else chunkRow upW r ⟨i.val - m, by have := i.isLt; omega⟩ j

/-- `MergeParallelLayer.forward`: one fused matmul, then `torch.chunk(·, 2,
dim=-1)` into `(gate_out, up_out)`. -/
def mergeGateUpForward {R : Type} [CommRing R] {W m H : Nat}
    (gateW upW : Fin (W * m) → Fin H → R) (r : Fin W) (x : Fin H → R) :
    (Fin m → R) × (Fin m → R) :=
  (fun i => nnLinear (gateUpCombined gateW upW r) x ⟨i.val, by have := i.isLt; omega⟩,
   fun i => nnLinear (gateUpCombined gateW upW r) x ⟨m + i.val, by have := i.isLt; omega⟩)

/-- `comm.all_reduce`: elementwise sum over all ranks. -/
def allReduceSum {R : Type} [CommRing R] {W H : Nat} (outs : Fin W → Fin H → R) :
    Fin H → R :=
  fun i => ∑ r, outs r i

/-- `MyLlamaMLP.forward` on rank `r` (before the all-reduce):
`down_proj(act(gate_out) * up_out)` with the rank's weight slices. -/
def mlpRankForward {R : Type} [CommRing R] {W m H : Nat} (act : R → R)
    (gateW upW : Fin (W * m) → Fin H → R) (downW : Fin H → Fin (W * m) → R)
    (r : Fin W) (x : Fin H → R) : Fin H → R :=
  nnLinear (chunkCol downW r)
    (fun j => act ((mergeGateUpForward gateW upW r x).1 j)
      * (mergeGateUpForward gateW upW r x).2 j)

/-- The unsharded reference computation `down(act(gate(x)) * up(x))`. -/
def mlpUnsharded {R : Type} [CommRing R] {n H : Nat} (act : R → R)
    (gateW upW : Fin n → Fin H → R) (downW : Fin H → Fin n → R)
    (x : Fin H → R) : Fin H → R :=
  nnLinear downW (fun t => act (nnLinear gateW x t) * nnLinear upW x t)

theorem merge_gate_eq {R : Type} [CommRing R] {W m H : Nat}
    (gateW upW : Fin (W * m) → Fin H → R) (r : Fin W) (x : Fin H → R) (i : Fin m) :
    (mergeGateUpForward gateW upW r x).1 i = nnLinear gateW x (rankIdx r i) := by
  show nnLinear (gateUpCombined gateW upW r) x ⟨i.val, _⟩ = _
  rw [nnLinear, nnLinear]
  refine Finset.sum_congr rfl (fun k _ => ?_)
  simp only [gateUpCombined, Fin.val_mk]
  rw [dif_pos i.isLt]
  simp only [chunkRow, Fin.eta]

theorem merge_up_eq {R : Type} [CommRing R] {W m H : Nat}
    (gateW upW : Fin (W * m) → Fin H → R) (r : Fin W) (x : Fin H → R) (i : Fin m) :
    (mergeGateUpForward gateW upW r x).2 i = nnLinear upW x (rankIdx r i) := by
  show nnLinear (gateUpCombined gateW upW r) x ⟨m + i.val, _⟩ = _
  rw [nnLinear, nnLinear]
  refine Finset.sum_congr rfl (fun k _ => ?_)
  simp only [gateUpCombined, Fin.val_mk]
  rw [dif_neg (by omega)]
  simp only [chunkRow]
  have h2 : (⟨m + i.val - m, by have := i.isLt; omega⟩ : Fin m) = i :=
    Fin.ext (by show m + i.val - m = i.val; omega)
  rw [h2]

/-- C5. With each rank's weights obtained by chunking the unsharded
matrices, the fused column-parallel gate/up, row-parallel down, and sum
all-reduce reproduce the unsharded MLP `down(act(gate(x)) * up(x))` exactly,
for every world size (the intermediate axis is `W * m`); with `W = 1` the
single rank's output already equals the unsharded result (the all-reduce is
the identity and the slice is the full matrix). -/
theorem C5_tensor_parallel_mlp {R : Type} [CommRing R] (act : R → R)
    (W m H : Nat) (gateW upW : Fin (W * m) → Fin H → R)
    (downW : Fin H → Fin (W * m) → R) (x : Fin H → R) :
    (∀ i, allReduceSum (fun r => mlpRankForward act gateW upW downW r x) i
        = mlpUnsharded act gateW upW downW x i)
    ∧ (∀ (gateW1 upW1 : Fin (1 * m) → Fin H → R)
        (downW1 : Fin H → Fin (1 * m) → R) (r : Fin 1) (i : Fin H),
        mlpRankForward act gateW1 upW1 downW1 r x i
          = mlpUnsharded act gateW1 upW1 downW1 x i) := by
  have main : ∀ (W' : Nat) (gW uW : Fin (W' * m) → Fin H → R)
      (dW : Fin H → Fin (W' * m) → R) (i : Fin H),
      allReduceSum (fun r => mlpRankForward act gW uW dW r x) i
        = mlpUnsharded act gW uW dW x i := by
    intro W' gW uW dW i
    have hgoal : mlpUnsharded act gW uW dW x i
        = ∑ t : Fin (W' * m),
            (fun t => dW i t * (act (nnLinear gW x t) * nnLinear uW x t)) t := by
      rw [mlpUnsharded, nnLinear]
    rw [allReduceSum, hgoal]
    have hstep : ∀ r : Fin W',
        mlpRankForward act gW uW dW r x i
          = ∑ j : Fin m,
              (fun t => dW i t * (act (nnLinear gW x t) * nnLinear uW x t))
                (rankIdx r j) := by
      intro r
      rw [mlpRankForward, nnLinear]
      refine Finset.sum_congr rfl (fun j _ => ?_)
      rw [merge_gate_eq, merge_up_eq]
      rfl
    calc ∑ r, mlpRankForward act gW uW dW r x i
        = ∑ r : Fin W', ∑ j : Fin m,
            (fun t => dW i t * (act (nnLinear gW x t) * nnLinear uW x t))
              (rankIdx r j) :=
          Finset.sum_congr rfl (fun r _ => hstep r)
      _ = ∑ p : Fin W' × Fin m,
            (fun t => dW i t * (act (nnLinear gW x t) * nnLinear uW x t))
              (rankIdx p.1 p.2) :=
          (Fintype.sum_prod_type' (fun r j =>
            (fun t => dW i t * (act (nnLinear gW x t) * nnLinear uW x t))
              (rankIdx r j))).symm
      _ = ∑ p : Fin W' × Fin m,
            (fun t => dW i t * (act (nnLinear gW x t) * nnLinear uW x t))
              (finProdFinEquiv p) := by
          refine Finset.sum_congr rfl (fun p _ => ?_)
          have he : finProdFinEquiv p = rankIdx p.1 p.2 := by
            apply Fin.ext
            show p.2.val + m * p.1.val = p.1.val * m + p.2.val
            ring
          rw [he]
      _ = ∑ t : Fin (W' * m),
            (fun t => dW i t * (act (nnLinear gW x t) * nnLinear uW x t)) t :=
          Equiv.sum_comp finProdFinEquiv
            (fun t => dW i t * (act (nnLinear gW x t) * nnLinear uW x t))
  refine ⟨main W gateW upW downW, ?_⟩
  intro gateW1 upW1 downW1 r i
  have h1 := main 1 gateW1 upW1 downW1 i
  rw [allReduceSum, Fin.sum_univ_one] at h1
  have hr : r = 0 := Subsingleton.elim r 0
  rw [hr]
  exact h1

/-! ## C6/C7/C8: cluster membership managers
(src/tllm/network/manager/websocket_manager.py and
src/tllm/websocket/manager.py) -/

/-- Modelled from the spec: the worker descriptor (its dataclass lives in
`tllm/schemas.py`, which is not among the analysed sources) — `client_id`,
reachable host, assigned `pp_rank` and `[start_idx, end_idx)`; the rank and
range default to `None` until assigned, matching both managers'
`ClientData(client_id=…, host=…)` construction and their
`pp_rank is None` / truthiness checks. -/
structure ClientData where
  client_id : String
  host : String
  pp_rank : Option Int := none
  start_idx : Option Int := none
  end_idx : Option Int := none
deriving DecidableEq

structure RegisterClientRequest where
  client_id : String
  host : String
  port : Nat
  pp_rank : Int
  start_idx : Int
  end_idx : Int
deriving DecidableEq

structure RegisterClientResponse where
  pp_rank : Int
  start_idx : Int
  end_idx : Int
  model : Option String
  msg : String
deriving DecidableEq

/-- Shared state shape of both `WebsocketManager` classes. `client_info`
holds `[start_idx, end_idx, count]` triples; `connect_clients` is the
currently selected covering path. -/
structure WebsocketManager where
  total_layers : Nat
  clients : List (String × ClientData)
  connect_clients : List ClientData
  client_size : Nat
  layer_info : List (Int × Int)
  client_info : List (Int × Int × Int)
deriving DecidableEq

def WebsocketManager.has_full_model (m : WebsocketManager) : Bool :=
  m.connect_clients.length == m.client_size

def aremove {β : Type} : List (String × β) → String → List (String × β)
  | [], _ => []
  | (k, v) :: rest, u => if k = u then rest else (k, v) :: aremove rest u

/-- `self.client_info[idx][-1] += d` (no-op on an out-of-range index, which
in Python would raise). -/
def bumpCount (l : List (Int × Int × Int)) (idx : Int) (d : Int) :
    List (Int × Int × Int) :=
  match l[idx.toNat]? with
  | some (s, e, c) => l.set idx.toNat (s, e, c + d)
  | none => l

/-- First rank whose count is 0, with its range (`enumerate` loop shared by
both managers); `none` models the fall-through `ValueError`. -/
def firstFreeRank : List (Int × Int × Int) → Nat → Option (Int × Int × Int)
  | [], _ => none
  | (s, e, cnt) :: rest, idx =>
    if cnt = 0 then some ((idx : Int), s, e) else firstFreeRank rest (idx + 1)

namespace NetworkWM

/-- `get_free_layer` of src/tllm/network/manager/websocket_manager.py: when
`has_full_model`, `random.choice(range(self.client_size))` — the draw is the
explicit input `choice` — and that rank's `layer_info` range; `none` models
the `IndexError`/`ValueError` paths. -/
def get_free_layer (m : WebsocketManager) (choice : Nat) :
    Option (Int × Int × Int) :=
  if m.has_full_model then
    match m.layer_info[choice]? with
    | some (s, e) => some ((choice : Int), s, e)
    | none => none
  else firstFreeRank m.client_info 0

/-- `register_client` of src/tllm/network/manager/websocket_manager.py. The
TCP probe's result is the explicit input `ping` (`tcp_ping_test` lives
outside the analysed sources); `none` on the whole result models an escaped
exception. -/
def register_client (m : WebsocketManager) (request : RegisterClientRequest)
    (model_path : String) (ping : Option (String × ℚ)) (choice : Nat) :
    Option (RegisterClientResponse × WebsocketManager) :=
  match ping with
  | none => some (⟨-1, -1, -1, none, "ping failed"⟩, m)
  | some (ip, _delay) =>
    let host := ip ++ ":" ++ toString request.port
    if request.pp_rank = -1 then
      let m' := { m with
        clients := aset m.clients request.client_id
          { client_id := request.client_id, host := host } }
      match get_free_layer m' choice with
      | some (pp, s, e) => some (⟨pp, s, e, some model_path, "success"⟩, m')
      | none => none
    else
      some (⟨request.pp_rank, request.start_idx, request.end_idx, none, "success"⟩,
        { m with
          clients := aset m.clients request.client_id
            { client_id := request.client_id, host := host,
              pp_rank := some request.pp_rank,
              start_idx := some request.start_idx,
              end_idx := some request.end_idx },
          client_info := bumpCount m.client_info request.pp_rank 1 })

/-- `unregister_client` of src/tllm/network/manager/websocket_manager.py:
guard `data.pp_rank is not None and data.pp_rank != -1`. -/
def unregister_client (m : WebsocketManager) (client_id : String) :
    WebsocketManager :=
  match alookup m.clients client_id with
  | none => m
  | some data =>
    let m' := { m with clients := aremove m.clients client_id }
    match data.pp_rank with
    | none => m'
    | some p =>
      if p ≠ -1 then { m' with client_info := bumpCount m'.client_info p (-1) }
      else m'

end NetworkWM

namespace WebsocketWM

/-- `unregister_client` of src/tllm/websocket/manager.py: guard
`data.pp_rank and data.pp_rank != -1` — Python truthiness, under which
`pp_rank == 0` is falsy. -/
def unregister_client (m : WebsocketManager) (client_id : String) :
    WebsocketManager :=
  match alookup m.clients client_id with
  | none => m
  | some data =>
    let m' := { m with clients := aremove m.clients client_id }
    match data.pp_rank with
    | none => m'
    | some p =>
      if p ≠ 0 ∧ p ≠ -1 then
        { m' with client_info := bumpCount m'.client_info p (-1) }
      else m'

end WebsocketWM

/-- C6. When all pipeline ranks are already covered (`has_full_model`),
`get_free_layer` maps every possible random draw `choice < client_size` to
that rank together with its `(start_idx, end_idx)` from `layer_info`, so the
draw is over all `client_size` assigned ranks; `register_client` with no
assignment then still succeeds with msg "success" and a valid assignment,
and leaves `client_info` (the recorded layer ranges and counts) unchanged. -/
theorem C6_get_free_layer_full_model (m : WebsocketManager) (choice : Nat)
    (request : RegisterClientRequest) (model_path : String) (ip : String)
    (delay : ℚ) (hfull : m.has_full_model = true)
    (hlen : m.layer_info.length = m.client_size)
    (hchoice : choice < m.client_size) (hreq : request.pp_rank = -1) :
    (∃ s e, m.layer_info[choice]? = some (s, e)
      ∧ NetworkWM.get_free_layer m choice = some ((choice : Int), s, e))
    ∧ (∃ resp m',
        NetworkWM.register_client m request model_path (some (ip, delay)) choice
          = some (resp, m')
        ∧ resp.msg = "success"
        ∧ resp.pp_rank = (choice : Int)
        ∧ (∃ s e, m.layer_info[choice]? = some (s, e)
            ∧ resp.start_idx = s ∧ resp.end_idx = e)
        ∧ m'.client_info = m.client_info
        ∧ m'.layer_info = m.layer_info) := by
  have hc : choice < m.layer_info.length := by omega
  have hp : m.layer_info[choice]? = some m.layer_info[choice] :=
    List.getElem?_eq_getElem hc
  rcases hse : m.layer_info[choice] with ⟨s, e⟩
  rw [hse] at hp
  refine ⟨⟨s, e, hp, ?_⟩, ?_⟩
  · rw [NetworkWM.get_free_layer, if_pos hfull, hp]
  · refine ⟨⟨(choice : Int), s, e, some model_path, "success"⟩,
      ({ m with
          clients := aset m.clients request.client_id
            ({ client_id := request.client_id,
               host := ip ++ ":" ++ toString request.port } : ClientData) } :
        WebsocketManager),
      ?_, rfl, rfl, ⟨s, e, hp, rfl, rfl⟩, rfl, rfl⟩
    have hfull' : ({ m with
        clients := aset m.clients request.client_id
          ({ client_id := request.client_id,
             host := ip ++ ":" ++ toString request.port } : ClientData) } :
        WebsocketManager).has_full_model = true := hfull
    have hp' : ({ m with
        clients := aset m.clients request.client_id
          ({ client_id := request.client_id,
             host := ip ++ ":" ++ toString request.port } : ClientData) } :
        WebsocketManager).layer_info[choice]? = some (s, e) := hp
    simp only [NetworkWM.register_client, NetworkWM.get_free_layer]
    rw [if_pos hreq, if_pos hfull', hp']

/-- Concrete fully-covered two-rank manager. -/
def mW6 : WebsocketManager :=
  { total_layers := 16,
    clients := [],
    connect_clients := [⟨"a", "h1", some 0, some 0, some 8⟩,
      ⟨"b", "h2", some 1, some 8, some 16⟩],
    client_size := 2,
    layer_info := [(0, 8), (8, 16)],
    client_info := [(0, 8, 1), (8, 16, 1)] }

theorem C6_get_free_layer_full_model_witness :
    mW6.has_full_model = true
    ∧ mW6.layer_info.length = mW6.client_size
    ∧ 1 < mW6.client_size
    ∧ (⟨"c", "h3", 8000, -1, -1, -1⟩ : RegisterClientRequest).pp_rank = -1
    ∧ ((∃ s e, mW6.layer_info[1]? = some (s, e)
        ∧ NetworkWM.get_free_layer mW6 1 = some ((1 : Int), s, e))
      ∧ (∃ resp m',
          NetworkWM.register_client mW6 ⟨"c", "h3", 8000, -1, -1, -1⟩ "model/path"
              (some ("1.2.3.4", 5)) 1
            = some (resp, m')
          ∧ resp.msg = "success"
          ∧ resp.pp_rank = (1 : Int)
          ∧ (∃ s e, mW6.layer_info[1]? = some (s, e)
              ∧ resp.start_idx = s ∧ resp.end_idx = e)
          ∧ m'.client_info = mW6.client_info
          ∧ m'.layer_info = mW6.layer_info)) := by
  have h1 : mW6.has_full_model = true := by decide
  have h2 : mW6.layer_info.length = mW6.client_size := by decide
  have h3 : 1 < mW6.client_size := by decide
  have h4 : (⟨"c", "h3", 8000, -1, -1, -1⟩ : RegisterClientRequest).pp_rank = -1 :=
    by decide
  exact ⟨h1, h2, h3, h4,
    C6_get_free_layer_full_model mW6 1 ⟨"c", "h3", 8000, -1, -1, -1⟩ "model/path"
      "1.2.3.4" 5 h1 h2 h3 h4⟩

/-- Concrete single-rank manager whose only client "c" is assigned
`pp_rank = 0` and counted once at rank 0. -/
def mC7 : WebsocketManager :=
  { total_layers := 16,
    clients := [("c", ⟨"c", "h", some 0, some 0, some 16⟩)],
    connect_clients := [],
    client_size := 1,
    layer_info := [(0, 16)],
    client_info := [(0, 16, 1)] }

/-- C7 (code bug). Both managers remove the descriptor, but
src/tllm/websocket/manager.py's `unregister_client` guards the decrement
with `if data.pp_rank and …`, which is falsy for `pp_rank = 0`: rank 0's
count stays 1 instead of dropping to 0. The sibling implementation in
src/tllm/network/manager/websocket_manager.py (`is not None` guard)
decrements as the spec requires. -/
theorem C7_unregister_rank_zero_code_bug :
    alookup (WebsocketWM.unregister_client mC7 "c").clients "c" = none
    ∧ (WebsocketWM.unregister_client mC7 "c").client_info = [(0, 16, 1)]
    ∧ alookup (NetworkWM.unregister_client mC7 "c").clients "c" = none
    ∧ (NetworkWM.unregister_client mC7 "c").client_info = [(0, 16, 0)] := by
  refine ⟨?_, ?_, ?_, ?_⟩ <;> decide

/-- C8. When the TCP reachability probe yields no address, `register_client`
answers msg "ping failed" with `pp_rank = start_idx = end_idx = -1` and
leaves the membership state (clients and client_info) untouched. -/
theorem C8_register_ping_failed (m : WebsocketManager)
    (request : RegisterClientRequest) (model_path : String) (choice : Nat) :
    NetworkWM.register_client m request model_path none choice
      = some (⟨-1, -1, -1, none, "ping failed"⟩, m) := rfl

end TLLM
